import Mathlib

/-!
Verification development for the smart-document-retrieval service
(`main.py` of the IR-PROJECT repository).

The Python source is shallowly embedded: strings are Lean `String`s
(lists of characters), the fixed regular expressions of the source are
implemented as executable scanners with Python's leftmost, greedy,
backtracking and word-boundary semantics for exactly those patterns,
and the external collaborators (the `dateparser` library, the spaCy NER
model, the geocoding provider, and the search engine's notion of a
matching document) are abstracted as oracle parameters.  `datetime`
timestamps are records of naturals; `strftime("%Y-...")` is modelled as
zero-padded decimal rendering of each field.  Python's `list(set(xs))`,
whose iteration order is unspecified (hash order), is modelled by an
order oracle constrained to produce a duplicate-free permutation of the
distinct elements.
-/

/-- Python `str.strip` / `\s` whitespace set (ASCII part). -/
def pyIsWs (c : Char) : Bool :=
  c = ' ' || c = '\t' || c = '\n' || c = '\r' || c = '\x0b' || c = '\x0c'

/-- Python's `\w` word characters (ASCII part), used for `\b` boundaries. -/
def isWordChar (c : Char) : Bool :=
  c.isAlphanum || c = '_'

/-- Python `str.strip()` on the character list. -/
def pyStripL (l : List Char) : List Char :=
  ((l.dropWhile pyIsWs).reverse.dropWhile pyIsWs).reverse

/-- Python `str.strip()`. -/
def pyStrip (s : String) : String :=
  String.mk (pyStripL s.data)

/-- Python `str.lower()` (ASCII part). -/
def pyLower (s : String) : String :=
  String.mk (s.data.map Char.toLower)

/-- Helper for `re.sub(r"\s+", " ", s)`: the boolean flag records whether the
previous character was whitespace (so a run is collapsed to one space). -/
def collapseWsGo : Bool → List Char → List Char
  | _, [] => []
  | prevWs, c :: cs =>
    if pyIsWs c then
      if prevWs then collapseWsGo true cs else ' ' :: collapseWsGo true cs
    else c :: collapseWsGo false cs

/-- `re.sub(r"\s+", " ", s)`: collapse every whitespace run to a single space. -/
def collapseWs (s : String) : String :=
  String.mk (collapseWsGo false s.data)

/-- Python `s[:n]` on a string (character slicing). -/
def strTake (n : Nat) (s : String) : String :=
  String.mk (s.data.take n)

/-- Numeric value of a digit list (`int("...")`). -/
def natOfDigits (l : List Char) : Nat :=
  l.foldl (fun a c => a * 10 + (c.toNat - 48)) 0

/-- The decimal digit character for `n % 10`. -/
def digitChar10 (n : Nat) : Char :=
  Char.ofNat (48 + n % 10)

/-- Two-digit zero-padded rendering (`%02d`, and `%m`/`%d`/`%H`/`%M`/`%S`). -/
def pad2 (n : Nat) : String :=
  String.mk [digitChar10 (n / 10), digitChar10 n]

/-- Four-digit zero-padded rendering, used for `%Y`. -/
def pad4 (n : Nat) : String :=
  String.mk [digitChar10 (n / 1000), digitChar10 (n / 100), digitChar10 (n / 10), digitChar10 n]

/-! ### Regex building blocks

Each fixed pattern of the source is compiled by hand into an executable
matcher.  A matcher takes the suffix of the text at the current scan
position and returns the payload together with the number of consumed
characters; `\b` before the match is checked by the scanner, which knows
the previous character. -/

/-- Match exactly `n` digits (`\d{n}`), returning them and the rest. -/
def exactDigits : Nat → List Char → Option (List Char × List Char)
  | 0, l => some ([], l)
  | _ + 1, [] => none
  | n + 1, c :: cs =>
    if c.isDigit then (exactDigits n cs).map (fun p => (c :: p.1, p.2)) else none

/-- Consume one expected literal character. -/
def expectChar (c : Char) : List Char → Option (List Char)
  | x :: xs => if x = c then some xs else none
  | [] => none

/-- `\b` after a word character: the next character must not be a word character. -/
def boundaryAfter : List Char → Bool
  | [] => true
  | c :: _ => !isWordChar c

/-- `\b` before a word character: start of text, or previous char not a word char. -/
def boundaryBefore : Option Char → Bool
  | none => true
  | some c => !isWordChar c

/-- `\s+`: consume one or more whitespace characters greedily,
returning the count consumed and the rest. -/
def wsPlus (l : List Char) : Option (Nat × List Char) :=
  let n := (l.takeWhile pyIsWs).length
  if n = 0 then none else some (n, l.drop n)

/-- Case-insensitive literal match (for the `re.IGNORECASE` month names). -/
def matchCaseless : List Char → List Char → Option (List Char)
  | [], l => some l
  | _ :: _, [] => none
  | p :: ps, c :: cs => if c.toLower = p then matchCaseless ps cs else none

/-- Generic `re.findall` scan loop: try the matcher at every position,
left to right; on success emit the payload and resume after the match
(non-overlapping), otherwise advance one character.  The fuel is the
text length; every successful match consumes at least one character. -/
def scanP {α : Type} (f : Option Char → List Char → Option (α × Nat)) :
    Nat → Option Char → List Char → List α
  | 0, _, _ => []
  | _ + 1, _, [] => []
  | fuel + 1, prev, c :: cs =>
    match f prev (c :: cs) with
    | some (a, k) => a :: scanP f fuel (((c :: cs).drop (k - 1)).head?) ((c :: cs).drop k)
    | none => scanP f fuel (some c) cs

/-- Run a matcher over a whole text (`re.findall`). -/
def findAll {α : Type} (f : Option Char → List Char → Option (α × Nat)) (l : List Char) : List α :=
  scanP f l.length none l

/-- `\b(\d{4})-(\d{2})-(\d{2})\b` at the current position
(payload: year, month, day digits as numbers). -/
def matchIsoCore (l : List Char) : Option ((Nat × Nat × Nat) × Nat) :=
  (exactDigits 4 l).bind fun p1 =>
  (expectChar '-' p1.2).bind fun r2 =>
  (exactDigits 2 r2).bind fun p3 =>
  (expectChar '-' p3.2).bind fun r4 =>
  (exactDigits 2 r4).bind fun p5 =>
  if boundaryAfter p5.2 then
    some ((natOfDigits p1.1, natOfDigits p3.1, natOfDigits p5.1), 10)
  else none

def matchIso (prev : Option Char) (l : List Char) : Option ((Nat × Nat × Nat) × Nat) :=
  if boundaryBefore prev then matchIsoCore l else none

/-- One backtracking alternative of `\b(\d{1,2})/(\d{1,2})/(\d{2,4})\b`
with fixed digit-group widths (payload: month, day, year numbers). -/
def usCombo (ml dl yl : Nat) (l : List Char) : Option ((Nat × Nat × Nat) × Nat) :=
  (exactDigits ml l).bind fun p1 =>
  (expectChar '/' p1.2).bind fun r2 =>
  (exactDigits dl r2).bind fun p3 =>
  (expectChar '/' p3.2).bind fun r4 =>
  (exactDigits yl r4).bind fun p5 =>
  if boundaryAfter p5.2 then
    some ((natOfDigits p1.1, natOfDigits p3.1, natOfDigits p5.1), ml + dl + yl + 2)
  else none

/-- `\b(\d{1,2})/(\d{1,2})/(\d{2,4})\b`: greedy groups with regex
backtracking order (rightmost group varies fastest). -/
def matchUsCore (l : List Char) : Option ((Nat × Nat × Nat) × Nat) :=
  usCombo 2 2 4 l <|> usCombo 2 2 3 l <|> usCombo 2 2 2 l <|>
  usCombo 2 1 4 l <|> usCombo 2 1 3 l <|> usCombo 2 1 2 l <|>
  usCombo 1 2 4 l <|> usCombo 1 2 3 l <|> usCombo 1 2 2 l <|>
  usCombo 1 1 4 l <|> usCombo 1 1 3 l <|> usCombo 1 1 2 l

def matchUs (prev : Option Char) (l : List Char) : Option ((Nat × Nat × Nat) × Nat) :=
  if boundaryBefore prev then matchUsCore l else none

/-- The `MONTHS` table of the source, in the regex alternation order. -/
def monthNames : List (String × Nat) :=
  [("january", 1), ("february", 2), ("march", 3), ("april", 4),
   ("may", 5), ("june", 6), ("july", 7), ("august", 8),
   ("september", 9), ("october", 10), ("november", 11), ("december", 12)]

/-- One backtracking alternative of `(\d{1,2}),?\s+(\d{4})\b` after the month
name and its following `\s+` (day width and comma presence fixed). -/
def monthTail (dl : Nat) (comma : Bool) (l : List Char) : Option ((Nat × Nat) × Nat) :=
  match exactDigits dl l with
  | none => none
  | some (ds, r1) =>
    match (if comma then expectChar ',' r1 else some r1) with
    | none => none
    | some r2 =>
      match wsPlus r2 with
      | none => none
      | some (wn, r3) =>
        match exactDigits 4 r3 with
        | none => none
        | some (ys, r4) =>
          if boundaryAfter r4 then
            some ((natOfDigits ds, natOfDigits ys), dl + (if comma then 1 else 0) + wn + 4)
          else none

/-- Try one month-name alternative of
`\b(January|...|December)\s+(\d{1,2}),?\s+(\d{4})\b` (case-insensitive),
payload: (year, month, day) numbers. -/
def tryMonth (nm : String) (mnum : Nat) (l : List Char) : Option ((Nat × Nat × Nat) × Nat) :=
  (matchCaseless nm.data l).bind fun r1 =>
  (wsPlus r1).bind fun p2 =>
  (monthTail 2 true p2.2 <|> monthTail 2 false p2.2 <|>
   monthTail 1 true p2.2 <|> monthTail 1 false p2.2).map fun q =>
    ((q.1.2, mnum, q.1.1), nm.length + p2.1 + q.2)

def matchMonthCore (l : List Char) : Option ((Nat × Nat × Nat) × Nat) :=
  monthNames.foldr (fun p acc => tryMonth p.1 p.2 l <|> acc) none

def matchMonth (prev : Option Char) (l : List Char) : Option ((Nat × Nat × Nat) × Nat) :=
  if boundaryBefore prev then matchMonthCore l else none

/-- `\b\d{4}\b` (bare four-digit year), payload: the year number. -/
def matchYearCore (l : List Char) : Option (Nat × Nat) :=
  match exactDigits 4 l with
  | none => none
  | some (ys, r) => if boundaryAfter r then some (natOfDigits ys, 4) else none

def matchYear (prev : Option Char) (l : List Char) : Option (Nat × Nat) :=
  if boundaryBefore prev then matchYearCore l else none

/-- Wrap a matcher so that the payload is the matched substring itself
(a no-group `re.findall` returns full matches). -/
def asSubstring {α : Type} (f : Option Char → List Char → Option (α × Nat))
    (prev : Option Char) (l : List Char) : Option (String × Nat) :=
  (f prev l).map (fun p => (String.mk (l.take p.2), p.2))

example : findAll matchIso "on 1987-02-26 x".data = [(1987, 2, 26)] := by decide
example : findAll matchIso "x1987-02-26".data = [] := by decide
example : findAll matchUs "2/26/1987 and 02/26/87".data = [(2, 26, 1987), (2, 26, 87)] := by decide
example : findAll matchMonth "March 10, 2020".data = [(2020, 3, 10)] := by decide
example : findAll matchMonth "march  7 1999!".data = [(1999, 3, 7)] := by decide
example : findAll matchMonth "March 10,2020".data = [] := by decide
example : findAll matchYear "1999 2000".data = [1999, 2000] := by decide
example : findAll (asSubstring matchYear) "in 1999".data = ["1999"] := by decide

/-! ### Calendar dates -/

/-- A `datetime.datetime(y, mo, d)` value (candidates always have time
00:00:00, so only the calendar day is carried). -/
structure SDate where
  year : Nat
  month : Nat
  day : Nat
deriving DecidableEq

/-- Gregorian leap year, as `datetime` implements it. -/
def isLeap (y : Nat) : Bool :=
  y % 4 = 0 && (y % 100 ≠ 0 || y % 400 = 0)

def daysInMonth (y m : Nat) : Nat :=
  if m = 2 then (if isLeap y then 29 else 28)
  else if m = 4 || m = 6 || m = 9 || m = 11 then 30
  else 31

/-- Whether `datetime.datetime(y, mo, d)` succeeds (else `ValueError`). -/
def isValidDate (y mo d : Nat) : Bool :=
  1 ≤ y && y ≤ 9999 && 1 ≤ mo && mo ≤ 12 && 1 ≤ d && d ≤ daysInMonth y mo

/-- Comparison key: `datetime` order is lexicographic on (year, month, day);
for fields in `datetime`'s ranges this decimal key is order-isomorphic. -/
def sdKey (d : SDate) : Nat :=
  d.year * 10000 + d.month * 100 + d.day

/-- `d.strftime("%Y-%m-%dT%H:%M:%S")` for a midnight datetime (also the
literal `"%Y-%m-%dT00:00:00"` format used by the query constructor);
`%Y` is modelled as zero-padded to four digits. -/
def fmtT0 (d : SDate) : String :=
  pad4 d.year ++ "-" ++ pad2 d.month ++ "-" ++ pad2 d.day ++ "T00:00:00"

/-- `d + timedelta(days=1)`; `none` models the `OverflowError` past
`datetime.max` (9999-12-31). -/
def addOneDay (d : SDate) : Option SDate :=
  if d.day < daysInMonth d.year d.month then some ⟨d.year, d.month, d.day + 1⟩
  else if d.month < 12 then some ⟨d.year, d.month + 1, 1⟩
  else if d.year < 9999 then some ⟨d.year + 1, 1, 1⟩
  else none

/-- Generic first-occurrence deduplication with an explicit `seen` set of
keys — the `seen = set(); for ...: if key not in seen` idiom of the source
(also `dict.fromkeys` for `key = id`). -/
def dedupByKey {α β : Type} [DecidableEq β] (key : α → β) : List α → List β → List α
  | [], _ => []
  | x :: xs, seen =>
    if key x ∈ seen then dedupByKey key xs seen
    else x :: dedupByKey key xs (key x :: seen)

/-- `list(dict.fromkeys(l))`. -/
def pyDedupFirst {α : Type} [DecidableEq α] (l : List α) : List α :=
  dedupByKey id l []

/-- The raw `cands` list of `parse_date_candidates_from_text` (main.py:198):
the matches of the three full-date patterns in source order (ISO, US
slashed with two-digit-year adjustment, month-name), keeping those that
`datetime` accepts. -/
def rawDateCandidates (text : String) : List SDate :=
  let isoC := (findAll matchIso text.data).filterMap (fun t =>
    if isValidDate t.1 t.2.1 t.2.2 then some (⟨t.1, t.2.1, t.2.2⟩ : SDate) else none)
  let usC := (findAll matchUs text.data).filterMap (fun t =>
    let y := t.2.2
    let y := if y < 100 then (if 50 ≤ y then y + 1900 else y + 2000) else y
    if isValidDate y t.1 t.2.1 then some (⟨y, t.1, t.2.1⟩ : SDate) else none)
  let monC := (findAll matchMonth text.data).filterMap (fun t =>
    if isValidDate t.1 t.2.1 t.2.2 then some (⟨t.1, t.2.1, t.2.2⟩ : SDate) else none)
  isoC ++ usC ++ monC

/-- `parse_date_candidates_from_text` (main.py:198): the raw candidates,
deduplicated by calendar day (`d.date().isoformat()`, i.e. the day
triple) keeping the first occurrence, capped at `limit`. -/
def parse_date_candidates_from_text (text : String) (limit : Nat) : List SDate :=
  if text = "" then []
  else (dedupByKey id (rawDateCandidates text) []).take limit

/-- An admissible model of Python's `list(set(xs))`: some duplicate-free
enumeration of exactly the elements of `xs` (iteration order of a `set`
is unspecified hash order). -/
def SetOrderOK (f : List String → List String) : Prop :=
  ∀ l, (f l).Nodup ∧ ∀ x, x ∈ f l ↔ x ∈ l

/-- The raw temporal-pattern matches of `extract_temporal_expressions`
(main.py:301), concatenated in the source's pattern-list order:
bare years, month-name dates, slashed dates, ISO dates. -/
def temporalMatches (text : String) : List String :=
  findAll (asSubstring matchYear) text.data ++
  findAll (asSubstring matchMonth) text.data ++
  findAll (asSubstring matchUs) text.data ++
  findAll (asSubstring matchIso) text.data

/-- `extract_temporal_expressions` (main.py:301): `list(set(expressions))[:10]`,
with the set-enumeration order abstracted by `setOrder`. -/
def extract_temporal_expressions (setOrder : List String → List String)
    (text : String) : List String :=
  (setOrder (temporalMatches text)).take 10

example : parse_date_candidates_from_text "1987-02-26 and 02/26/1987" 10 =
    [⟨1987, 2, 26⟩] := by decide
example : parse_date_candidates_from_text "March 10, 2020; 2020-03-10; 3/11/20" 10 =
    [⟨2020, 3, 10⟩, ⟨2020, 3, 11⟩] := by decide
example : parse_date_candidates_from_text "1999" 10 = [] := by decide
example : parse_date_candidates_from_text "2021-02-30" 10 = [] := by decide
example : temporalMatches "1999" = ["1999"] := by decide
example : temporalMatches "on 1987-02-26" =
    ["1987", "1987-02-26"] := by decide

/-! ### `normalize_date_value` (main.py:166) -/

/-- A full `datetime.datetime` as returned by `dateparser.parse`, with the
field ranges `datetime` guarantees. -/
structure PyDateTime where
  year : Nat
  month : Nat
  day : Nat
  hour : Nat
  minute : Nat
  second : Nat
  year_le : year ≤ 9999
  month_le : month ≤ 12
  day_le : day ≤ 31
  hour_le : hour ≤ 23
  minute_le : minute ≤ 59
  second_le : second ≤ 59

/-- `dt.strftime("%Y-%m-%dT%H:%M:%S")` (`%Y` modelled zero-padded). -/
def formatPyDT (d : PyDateTime) : String :=
  pad4 d.year ++ "-" ++ pad2 d.month ++ "-" ++ pad2 d.day ++ "T" ++
  pad2 d.hour ++ ":" ++ pad2 d.minute ++ ":" ++ pad2 d.second

/-- Shape pattern matcher: a list of per-character predicates that the
string must satisfy position by position (and nothing may be left over). -/
def shapeOK : List (Char → Bool) → List Char → Bool
  | [], [] => true
  | p :: ps, c :: cs => p c && shapeOK ps cs
  | _, _ => false

/-- The canonical timestamp shape `YYYY-MM-DDTHH:MM:SS`. -/
def canonPattern : List (Char → Bool) :=
  [Char.isDigit, Char.isDigit, Char.isDigit, Char.isDigit, fun c => c == '-',
   Char.isDigit, Char.isDigit, fun c => c == '-',
   Char.isDigit, Char.isDigit, fun c => c == 'T',
   Char.isDigit, Char.isDigit, fun c => c == ':',
   Char.isDigit, Char.isDigit, fun c => c == ':',
   Char.isDigit, Char.isDigit]

/-- Canonical timestamp check: the string is exactly `YYYY-MM-DDTHH:MM:SS`. -/
def isCanonicalTS (s : String) : Bool :=
  shapeOK canonPattern s.data

/-- The mandatory 19-character head `\d{4}-\d{2}-\d{2}T\d{2}:\d{2}:\d{2}` of
the two ISO regexes: on success return the remaining characters. -/
def splitCanon (l : List Char) : Option (List Char) :=
  (exactDigits 4 l).bind fun p1 =>
  (expectChar '-' p1.2).bind fun r2 =>
  (exactDigits 2 r2).bind fun p3 =>
  (expectChar '-' p3.2).bind fun r4 =>
  (exactDigits 2 r4).bind fun p5 =>
  (expectChar 'T' p5.2).bind fun r6 =>
  (exactDigits 2 r6).bind fun p7 =>
  (expectChar ':' p7.2).bind fun r8 =>
  (exactDigits 2 r8).bind fun p9 =>
  (expectChar ':' p9.2).bind fun r10 =>
  (exactDigits 2 r10).map fun p11 => p11.2

/-- Tail `(\.\d+)?(Z)?$` of the first ISO regex (main.py:181). -/
def tailFracOptZ : List Char → Bool
  | [] => true
  | ['Z'] => true
  | '.' :: rest =>
    let ds := rest.takeWhile Char.isDigit
    if ds = [] then false
    else
      match rest.drop ds.length with
      | [] => true
      | ['Z'] => true
      | _ => false
  | _ => false

/-- Offset core `[+-]\d{2}:\d{2}$`. -/
def offsetShape (l : List Char) : Bool :=
  match l with
  | [s, a, b, ':', c, d] => (s = '+' || s = '-') && a.isDigit && b.isDigit && c.isDigit && d.isDigit
  | _ => false

/-- Tail `(\.\d+)?([+-]\d{2}:\d{2})$` of the second ISO regex (main.py:186). -/
def tailFracOffset : List Char → Bool
  | '.' :: rest =>
    let ds := rest.takeWhile Char.isDigit
    if ds = [] then false else offsetShape (rest.drop ds.length)
  | l => offsetShape l

/-- Whole-string match of `^(\d{4}-\d{2}-\d{2}T\d{2}:\d{2}:\d{2})(\.\d+)?(Z)?$`. -/
def isoSuffixMatch (l : List Char) : Bool :=
  match splitCanon l with
  | some r => tailFracOptZ r
  | none => false

/-- Whole-string match of `^(\d{4}-\d{2}-\d{2}T\d{2}:\d{2}:\d{2})(\.\d+)?([+-]\d{2}:\d{2})$`. -/
def isoOffsetMatch (l : List Char) : Bool :=
  match splitCanon l with
  | some r => tailFracOffset r
  | none => false

/-- `normalize_date_value` (main.py:166) on a string input, with
`dateparser.parse` abstracted as the oracle `dp` (`none` models both a
`None` result and any exceptional failure).  `m.group(1)` is the first
19 characters of the stripped string. -/
def normalize_date_value (dp : String → Option PyDateTime) (value : String) : Option String :=
  if value = "" then none
  else
    let s := pyStrip value
    if isoSuffixMatch s.data then some (strTake 19 s)
    else if isoOffsetMatch s.data then some (strTake 19 s)
    else (dp s).map formatPyDT

/-! ### Documents and `ensure_document_has_date` (main.py:249) -/

/-- The caller-supplied `georeferences` value: the route accepts a bare
string or a list of strings. -/
inductive GeoVal where
  | gstr (s : String)
  | glist (l : List String)
deriving DecidableEq

/-- A geographic point `{"lat": ..., "lon": ...}` (floats modelled as ℚ). -/
structure Point where
  lat : ℚ
  lon : ℚ
deriving DecidableEq

/-- A document, with `Option` tracking presence of each JSON key. -/
structure Document where
  title : Option String := none
  content : Option String := none
  date : Option String := none
  extracted_dates : Option (List String) := none
  georeferences : Option GeoVal := none
  location_source : Option String := none
  geo_points : Option (List Point) := none
  geopoint : Option Point := none
deriving DecidableEq

/-- `if document.get("date"):` — present and truthy (non-empty string). -/
def dateTruthy (doc : Document) : Bool :=
  match doc.date with
  | some s => s ≠ ""
  | none => false

/-- Python `max(cands)` on datetimes: left fold keeping the current value
unless the next one is strictly greater. -/
def pyMaxSD (l : List SDate) : SDate :=
  match l with
  | [] => ⟨0, 0, 0⟩
  | x :: xs => xs.foldl (fun a b => if sdKey a < sdKey b then b else a) x

/-- `ensure_document_has_date` (main.py:249). -/
def ensure_document_has_date (dp : String → Option PyDateTime) (doc : Document) : Document :=
  if dateTruthy doc then
    let doc1 :=
      match normalize_date_value dp (doc.date.getD "") with
      | some fixed => { doc with date := some fixed }
      | none => { doc with date := none }
    match doc1.extracted_dates with
    | some _ => doc1
    | none => { doc1 with extracted_dates := some [] }
  else
    let text := pyStrip ((doc.title.getD "") ++ " " ++ (doc.content.getD ""))
    let cands := parse_date_candidates_from_text text 10
    match cands with
    | [] => { doc with extracted_dates := some [] }
    | _ :: _ =>
      { doc with date := some (fmtT0 (pyMaxSD cands)),
                 extracted_dates := some (cands.map fmtT0) }

example : normalize_date_value (fun _ => none) "2025-12-20T06:38:53.990Z" =
    some "2025-12-20T06:38:53" := by decide
example : normalize_date_value (fun _ => none) "2025-12-20T06:38:53+00:00" =
    some "2025-12-20T06:38:53" := by decide
example : normalize_date_value (fun _ => none) "2025-12-20T06:38:53.123-05:00" =
    some "2025-12-20T06:38:53" := by decide
example : normalize_date_value (fun _ => none) "2025-12-20T06:38:53" =
    some "2025-12-20T06:38:53" := by decide
example : normalize_date_value (fun _ => none) "not a date" = none := by decide
example : normalize_date_value (fun _ => none) "2025-12-20T06:38:53.Z" = none := by decide
example : isCanonicalTS "2025-12-20T06:38:53" = true := by decide
example : isCanonicalTS "2025-12-20T06:38:53Z" = false := by decide

/-! ### Location extraction (main.py:53) and geocoding (main.py:94)

The spaCy NER call is abstracted as an oracle `ner` giving the span
texts of the place-labelled entities (`GPE`/`LOC`/`FAC`) of its input;
`NLP_AVAILABLE` is the flag `nlpAvail`.  The geocoding provider is an
oracle `provider`; `none` covers both a `None` result and an exception. -/

/-- The dedup loop of `extract_all_locations`: normalize by whitespace
collapse + strip, key by the lowercase form, keep first surface form. -/
def dedupLocs : List String → List String → List String
  | [], _ => []
  | loc :: rest, seen =>
    let norm := pyStrip (collapseWs loc)
    let key := pyLower norm
    if key ≠ "" && key ∉ seen then norm :: dedupLocs rest (key :: seen)
    else dedupLocs rest seen

/-- `extract_all_locations` (main.py:53): NER over the first 8000
characters, spans stripped, deduplicated by normalized key. -/
def extract_all_locations (nlpAvail : Bool) (ner : String → List String)
    (text : String) : List String :=
  if text = "" || !nlpAvail then []
  else dedupLocs ((ner (strTake 8000 text)).map pyStrip) []

/-- Number of occurrences of `x` (`collections.Counter` count). -/
def countOcc (l : List String) (x : String) : Nat :=
  l.countP (fun y => y = x)

/-- `Counter(norm).most_common(1)[0][0]`: the most frequent element;
ties are broken by first insertion order (`most_common` is a stable
sort over first-occurrence key order). -/
def counterTop (l : List String) : String :=
  match pyDedupFirst l with
  | [] => ""
  | c :: cs => cs.foldl (fun best x => if countOcc l best < countOcc l x then x else best) c

/-- `extract_most_frequent_location` (main.py:73). -/
def extract_most_frequent_location (nlpAvail : Bool) (ner : String → List String)
    (text : String) : Option String :=
  if text = "" || !nlpAvail then none
  else
    let raw := (ner (strTake 8000 text)).map pyStrip
    match raw with
    | [] => none
    | _ :: _ =>
      let normL := raw.map (fun x => pyStrip (pyLower (collapseWs x)))
      let top := counterTop normL
      match raw.find? (fun loc => pyStrip (pyLower (collapseWs loc)) = top) with
      | some loc => some (pyStrip (collapseWs loc))
      | none => none

/-- The process-wide `GEOCODE_CACHE`: an association list from normalized
name to either a resolved point or the `None` failure sentinel. -/
def GeoCache : Type := List (String × Option Point)

def GeoCache.find (c : GeoCache) (k : String) : Option (Option Point) :=
  List.lookup k c

def GeoCache.insert (c : GeoCache) (k : String) (v : Option Point) : GeoCache :=
  (k, v) :: c

def GeoCache.dom (c : GeoCache) : List String :=
  c.map Prod.fst

/-- The loop body of `geocode_locations` (main.py:97) over the truncated
name list; returns (emitted points, final cache, names passed to the
external provider, in call order). -/
def geoLoop (provider : String → Option Point) :
    List String → GeoCache → List Point × GeoCache × List String
  | [], c => ([], c, [])
  | n :: rest, c =>
    let k := pyLower (pyStrip n)
    if k = "" then geoLoop provider rest c
    else
      match c.find k with
      | some (some p) =>
        let r := geoLoop provider rest c
        (p :: r.1, r.2)
      | some none => geoLoop provider rest c
      | none =>
        match provider n with
        | some p =>
          let r := geoLoop provider rest (c.insert k (some p))
          (p :: r.1, r.2.1, n :: r.2.2)
        | none =>
          let r := geoLoop provider rest (c.insert k none)
          (r.1, r.2.1, n :: r.2.2)

/-- `geocode_locations` (main.py:97): only the first `limit` names are
attempted (`location_names[:limit]`). -/
def geocode_locations (provider : String → Option Point) (location_names : List String)
    (limit : Nat) (cache : GeoCache) : List Point × GeoCache × List String :=
  geoLoop provider (location_names.take limit) cache

/-- `existing = document.get("georeferences") or []`, plus the
string-to-singleton coercion. -/
def existingGeorefs (doc : Document) : List String :=
  match doc.georeferences with
  | none => []
  | some (.gstr s) => if s = "" then [] else [s]
  | some (.glist l) => l

/-- The georeferences/location_source assignment of
`ensure_document_has_location` (main.py:129-143). -/
def locationAssign (nlpAvail : Bool) (ner : String → List String)
    (doc : Document) : Document :=
  let text := pyStrip ((doc.content.getD "") ++ " " ++ (doc.title.getD ""))
  let existing := existingGeorefs doc
  match existing with
  | _ :: _ =>
    { doc with
      georeferences := some (.glist (pyDedupFirst ((existing.map pyStrip).filter (· ≠ "")))),
      location_source := some (doc.location_source.getD "from-places") }
  | [] =>
    let all_locs := if text ≠ "" then extract_all_locations nlpAvail ner text else []
    match all_locs with
    | _ :: _ =>
      { doc with
        georeferences := some (.glist all_locs),
        location_source := some "auto-extracted" }
    | [] =>
      { doc with
        georeferences := some (.glist []),
        location_source := some "default" }

/-- `ensure_document_has_location` (main.py:126); returns the enriched
document and the updated geocode cache. -/
def ensure_document_has_location (nlpAvail : Bool) (ner : String → List String)
    (provider : String → Option Point) (doc : Document)
    (do_geocode : Bool) (geo_limit : Nat) (cache : GeoCache) : Document × GeoCache :=
  let text := pyStrip ((doc.content.getD "") ++ " " ++ (doc.title.getD ""))
  let doc1 := locationAssign nlpAvail ner doc
  let grefs := match doc1.georeferences with
    | some (.glist l) => l
    | some (.gstr s) => [s]
    | none => []
  if do_geocode && !grefs.isEmpty then
    let r1 := geocode_locations provider grefs geo_limit cache
    let doc2 := { doc1 with geo_points := some r1.1 }
    match extract_most_frequent_location nlpAvail ner text with
    | some main_loc =>
      if main_loc ≠ "" then
        let r2 := geocode_locations provider [main_loc] 1 r1.2.1
        match r2.1 with
        | p :: _ => ({ doc2 with geopoint := some p }, r2.2.1)
        | [] => (doc2, r2.2.1)
      else (doc2, r1.2.1)
    | none => (doc2, r1.2.1)
  else (doc1, cache)

example :
    (geocode_locations (fun _ => some ⟨1, 2⟩) ["Paris", "Paris"] 5 []).2.2 =
      ["Paris"] := by decide
example :
    (geocode_locations (fun _ => some ⟨1, 2⟩) ["Paris", "Paris"] 5 []).1 =
      [⟨1, 2⟩, ⟨1, 2⟩] := by decide
example :
    (geocode_locations (fun _ => none) ["Nowhere", "Nowhere"] 5 []).2.2 =
      ["Nowhere"] := by decide
example : dedupLocs ["New  York", "new york", "Paris"] [] = ["New York", "Paris"] := by decide

/-! ### `strptime` and the temporal filter (main.py:536) -/

/-- The 1-or-2-digit number groups of `strptime`'s `%m`/`%d` patterns
(`(1[0-2]|0[1-9]|[1-9])` resp. `(3[01]|[12]\d|0[1-9]|[1-9])`): two digits
whose value is in range, else one digit in range.  For these formats the
following literal is never a digit, so no further backtracking arises. -/
def parse2or1 (lo hi : Nat) (l : List Char) : Option (Nat × List Char) :=
  match exactDigits 2 l with
  | some (ds, r) =>
    let v := natOfDigits ds
    if lo ≤ v && v ≤ hi then some (v, r)
    else
      match exactDigits 1 l with
      | some (ds1, r1) =>
        let v1 := natOfDigits ds1
        if lo ≤ v1 && v1 ≤ hi then some (v1, r1) else none
      | none => none
  | none =>
    match exactDigits 1 l with
    | some (ds1, r1) =>
      let v1 := natOfDigits ds1
      if lo ≤ v1 && v1 ≤ hi then some (v1, r1) else none
    | none => none

/-- `datetime.strptime(t, "%Y-%m-%d")`: whole-string match then calendar
validation (a `ValueError` from either step is `none`). -/
def strptimeYmd (s : String) : Option SDate :=
  match exactDigits 4 s.data with
  | none => none
  | some (ys, r1) =>
    match expectChar '-' r1 with
    | none => none
    | some r2 =>
      match parse2or1 1 12 r2 with
      | none => none
      | some (mo, r3) =>
        match expectChar '-' r3 with
        | none => none
        | some r4 =>
          match parse2or1 1 31 r4 with
          | none => none
          | some (dd, r5) =>
            if r5 = [] then
              let y := natOfDigits ys
              if isValidDate y mo dd then some ⟨y, mo, dd⟩ else none
            else none

/-- `datetime.strptime(t, "%m/%d/%Y")`. -/
def strptimeMdy (s : String) : Option SDate :=
  match parse2or1 1 12 s.data with
  | none => none
  | some (mo, r1) =>
    match expectChar '/' r1 with
    | none => none
    | some r2 =>
      match parse2or1 1 31 r2 with
      | none => none
      | some (dd, r3) =>
        match expectChar '/' r3 with
        | none => none
        | some r4 =>
          match exactDigits 4 r4 with
          | none => none
          | some (ys, r5) =>
            if r5 = [] then
              let y := natOfDigits ys
              if isValidDate y mo dd then some ⟨y, mo, dd⟩ else none
            else none

/-- `re.fullmatch(r"\d{4}", t)`. -/
def isYear4 (s : String) : Bool :=
  match s.data with
  | [a, b, c, d] => a.isDigit && b.isDigit && c.isDigit && d.isDigit
  | _ => false

/-- A leaf search-engine query (one single-key OpenSearch clause dict).
Boosts are rationals; `none` means the key is absent (engine default 1.0). -/
inductive Leaf where
  | rangeQ (field : String) (gte lt : String) (boost : Option ℚ)
  | matchQ (field : String) (query : String) (boost : Option ℚ) (fuzziness : Option String)
  | matchPhraseQ (field : String) (query : String) (boost : Option ℚ)
  | termQ (field : String) (value : String) (boost : Option ℚ)
deriving DecidableEq

/-- A clause as assembled by `smart_search`: a leaf, a nested
`bool`/`should` group, or a `constant_score` wrapper. -/
inductive Clause where
  | leaf (q : Leaf)
  | boolShould (should : List Leaf) (minimum_should_match : Nat)
  | constantScore (filter : Leaf) (boost : ℚ)
deriving DecidableEq

/-- Effective weight of an optional boost (engine default 1.0). -/
def effBoost (b : Option ℚ) : ℚ :=
  b.getD 1

/-- The boost literal `1.5` of the source (as a kernel-computable rational). -/
def ratThreeHalves : ℚ := ⟨3, 2, by decide, by decide⟩

/-- `parse_temporal_to_date_filter` (main.py:536).  The `try` blocks
around `strptime` + `timedelta` fall through to the next branch on any
exception, including the `OverflowError` of `9999-12-31 + 1 day`. -/
def parse_temporal_to_date_filter (t : String) : Option Clause :=
  if t = "" then none
  else
    let t := pyStrip t
    match (strptimeYmd t).bind (fun d => (addOneDay d).map (fun d2 => (d, d2))) with
    | some (d, d2) => some (.leaf (.rangeQ "date" (fmtT0 d) (fmtT0 d2) none))
    | none =>
      match (strptimeMdy t).bind (fun d => (addOneDay d).map (fun d2 => (d, d2))) with
      | some (d, d2) => some (.leaf (.rangeQ "date" (fmtT0 d) (fmtT0 d2) none))
      | none =>
        if isYear4 t then
          let y := natOfDigits t.data
          some (.boolShould
            [.rangeQ "date" (toString y ++ "-01-01T00:00:00")
                            (toString (y + 1) ++ "-01-01T00:00:00") none,
             .matchQ "temporal_expressions" t (some 2) none] 1)
        else some (.leaf (.matchQ "temporal_expressions" t (some ratThreeHalves) none))

/-- The top-level query body assembled by `smart_search` (main.py:585). -/
structure SearchQuery where
  size : Nat
  must : List Clause
  filter : List Clause
  should : List Clause
  minimum_should_match : Nat
deriving DecidableEq

/-- The `if "range" in tf` wrapping of the temporal clause (main.py:608):
a top-level `range` dict becomes an optional `constant_score` boost. -/
def wrapTemporal (tf : Clause) : Clause :=
  match tf with
  | .leaf (.rangeQ f g l b) => .constantScore (.rangeQ f g l b) 3
  | other => other

/-- Query assembly of `smart_search` (main.py:585-638): text must-clause,
optional temporal and geo should-clauses, 3x over-fetch, no filter,
`minimum_should_match: 0`. -/
def smart_search_query (query temporal_expression georeference : String)
    (size : Nat) : SearchQuery :=
  let query_text := pyStrip query
  let temporal := pyStrip temporal_expression
  let geo := pyStrip georeference
  let must_clauses :=
    if query_text ≠ "" then
      [Clause.boolShould
        [.termQ "title.keyword" query_text (some 50),
         .matchPhraseQ "title" query_text (some 20),
         .matchQ "title" query_text (some 6) (some "AUTO"),
         .matchQ "content" query_text (some 1) none] 1]
    else []
  let temporal_should :=
    if temporal ≠ "" then
      match parse_temporal_to_date_filter temporal with
      | some tf => [wrapTemporal tf]
      | none => []
    else []
  let geo_should :=
    if geo ≠ "" then
      [Clause.leaf (.termQ "georeferences.keyword" geo (some 60)),
       Clause.leaf (.matchQ "georeferences" geo (some 15) none)]
    else []
  { size := size * 3,
    must := must_clauses,
    filter := [],
    should := temporal_should ++ geo_should,
    minimum_should_match := 0 }

/-- Whether a document (seen through the oracle `sat`, which decides the
leaf clauses on that document) satisfies a clause — the engine's notion
of "not excluded". -/
def clauseSat (sat : Leaf → Bool) : Clause → Bool
  | .leaf q => sat q
  | .boolShould ls m => m ≤ ls.countP sat
  | .constantScore f _ => sat f

/-- Whether a document satisfies a whole `bool` query: every `must` and
`filter` clause holds and at least `minimum_should_match` of the
`should` clauses hold. -/
def querySat (sat : Leaf → Bool) (q : SearchQuery) : Bool :=
  q.must.all (clauseSat sat) && q.filter.all (clauseSat sat) &&
  q.minimum_should_match ≤ q.should.countP (clauseSat sat)

/-! ### Result post-processing (main.py:277, main.py:640) -/

/-- A raw search hit as seen by `remove_duplicates`: only the
(possibly missing) `title` matters; `hid` stands for the rest of the
payload so that distinct hits stay distinguishable. -/
structure Hit where
  title : Option String
  hid : Nat
deriving DecidableEq

/-- The dedup key of `remove_duplicates`: `str(item.get("title", "")).lower().strip()`. -/
def hitKey (h : Hit) : String :=
  pyStrip (pyLower (h.title.getD ""))

/-- The loop of `remove_duplicates` (main.py:277) with `key="title"`:
items with an empty normalized key are dropped, later items with a seen
key are dropped, the first occurrence of each nonempty key is kept. -/
def removeDuplicatesGo : List Hit → List String → List Hit
  | [], _ => []
  | item :: rest, seen =>
    let identifier := hitKey item
    if identifier ≠ "" && identifier ∉ seen then
      item :: removeDuplicatesGo rest (identifier :: seen)
    else removeDuplicatesGo rest seen

/-- `remove_duplicates(results, key="title")`. -/
def remove_duplicates (results : List Hit) : List Hit :=
  removeDuplicatesGo results []

/-- The result post-processing of `smart_search` (main.py:651-655):
deduplicate, then truncate to the requested size. -/
def smart_search_post (hits : List Hit) (size : Nat) : List Hit :=
  (remove_duplicates hits).take size

/-- The spec's wording of the dedup step ("deduplicates the raw hits by
normalized title keeping the first occurrence of each title"), written
independently of the source: plain first-occurrence dedup by the
normalized key, with no empty-key special case. -/
def specDedupByTitle (hits : List Hit) : List Hit :=
  dedupByKey hitKey hits []

/-- The spec's wording of `extract_temporal_expressions` ("truncated to
the first 10 found, in scan order"): first-occurrence dedup of the scan
matches, then the first 10. -/
def specScanFirstTen (text : String) : List String :=
  (pyDedupFirst (temporalMatches text)).take 10

example : parse_temporal_to_date_filter "1987-02-26" =
    some (.leaf (.rangeQ "date" "1987-02-26T00:00:00" "1987-02-27T00:00:00" none)) := by decide
example : parse_temporal_to_date_filter "02/26/1987" =
    some (.leaf (.rangeQ "date" "1987-02-26T00:00:00" "1987-02-27T00:00:00" none)) := by decide
example : parse_temporal_to_date_filter "1987" =
    some (.boolShould
      [.rangeQ "date" "1987-01-01T00:00:00" "1988-01-01T00:00:00" none,
       .matchQ "temporal_expressions" "1987" (some 2) none] 1) := by decide
example : parse_temporal_to_date_filter "last year" =
    some (.leaf (.matchQ "temporal_expressions" "last year" (some ratThreeHalves) none)) := by decide
example : parse_temporal_to_date_filter "9999-12-31" =
    some (.leaf (.matchQ "temporal_expressions" "9999-12-31" (some ratThreeHalves) none)) := by decide
example : parse_temporal_to_date_filter "2024-12-31" =
    some (.leaf (.rangeQ "date" "2024-12-31T00:00:00" "2025-01-01T00:00:00" none)) := by decide
example : parse_temporal_to_date_filter "2024-02-30" =
    some (.leaf (.matchQ "temporal_expressions" "2024-02-30" (some ratThreeHalves) none)) := by decide

/-! ### Helper lemmas -/

theorem exactDigits_decomp {n : Nat} {l ds r : List Char}
    (h : exactDigits n l = some (ds, r)) :
    l = ds ++ r ∧ ds.length = n ∧ ∀ c ∈ ds, c.isDigit = true := by
  induction n generalizing l ds r with
  | zero =>
    have h2 : ([], l) = (ds, r) := Option.some.inj h
    cases h2
    simp
  | succ n ih =>
    match l with
    | [] => simp [exactDigits] at h
    | c :: cs =>
      have h2 : (if c.isDigit then (exactDigits n cs).map (fun p => (c :: p.1, p.2))
          else none) = some (ds, r) := h
      by_cases hc : c.isDigit
      · rw [if_pos hc] at h2
        match hed : exactDigits n cs with
        | none => rw [hed] at h2; simp at h2
        | some (ds', r') =>
          rw [hed] at h2
          have h3 : ((c :: ds', r') : List Char × List Char) = (ds, r) :=
            Option.some.inj h2
          cases h3
          obtain ⟨e1, e2, e3⟩ := ih hed
          refine ⟨by simp [e1], by simp [e2], ?_⟩
          intro x hx
          rcases List.mem_cons.1 hx with rfl | hx
          · exact hc
          · exact e3 x hx
      · rw [if_neg hc] at h2
        simp at h2

theorem expectChar_decomp {c : Char} {l r : List Char}
    (h : expectChar c l = some r) : l = c :: r := by
  match l with
  | [] => simp [expectChar] at h
  | x :: xs =>
    have h2 : (if x = c then some xs else none) = some r := h
    by_cases hx : x = c
    · rw [if_pos hx] at h2
      cases Option.some.inj h2
      rw [hx]
    · rw [if_neg hx] at h2
      simp at h2

theorem dedupByKey_sublist {α β : Type} [DecidableEq β] (key : α → β)
    (l : List α) (seen : List β) : (dedupByKey key l seen).Sublist l := by
  induction l generalizing seen with
  | nil => simp [dedupByKey]
  | cons x xs ih =>
    simp only [dedupByKey]
    by_cases h : key x ∈ seen
    · simp only [if_pos h]
      exact (ih seen).cons x
    · simp only [if_neg h]
      exact (ih (key x :: seen)).cons₂ x

theorem dedupByKey_mem {α β : Type} [DecidableEq β] {key : α → β}
    {l : List α} {seen : List β} {x : α} (h : x ∈ dedupByKey key l seen) : x ∈ l :=
  (dedupByKey_sublist key l seen).mem h

theorem dedupByKey_keys {α β : Type} [DecidableEq β] (key : α → β)
    (l : List α) (seen : List β) :
    ((dedupByKey key l seen).map key).Nodup ∧
      ∀ b ∈ (dedupByKey key l seen).map key, b ∉ seen := by
  induction l generalizing seen with
  | nil => simp [dedupByKey]
  | cons x xs ih =>
    simp only [dedupByKey]
    by_cases h : key x ∈ seen
    · simp only [if_pos h]
      exact ih seen
    · simp only [if_neg h, List.map_cons, List.nodup_cons]
      obtain ⟨ih1, ih2⟩ := ih (key x :: seen)
      refine ⟨⟨fun hmem => ?_, ih1⟩, ?_⟩
      · exact absurd (List.mem_cons_self _ _) (ih2 _ hmem)
      · intro b hb
        rcases List.mem_cons.1 hb with rfl | hb
        · exact h
        · intro hbs
          exact (ih2 b hb) (List.mem_cons_of_mem _ hbs)

theorem dedupByKey_first_occ {α β : Type} [DecidableEq β] {key : α → β}
    {l : List α} {seen : List β} {x : α} (h : x ∈ dedupByKey key l seen) :
    key x ∉ seen ∧ l.find? (fun y => decide (key y = key x)) = some x := by
  induction l generalizing seen with
  | nil => simp [dedupByKey] at h
  | cons y ys ih =>
    simp only [dedupByKey] at h
    by_cases hy : key y ∈ seen
    · rw [if_pos hy] at h
      obtain ⟨hns, hf⟩ := ih h
      refine ⟨hns, ?_⟩
      have hne : key y ≠ key x := fun he => hns (he ▸ hy)
      rw [List.find?_cons_of_neg _ (by simp [hne]), hf]
    · rw [if_neg hy] at h
      rcases List.mem_cons.1 h with rfl | h
      · exact ⟨hy, List.find?_cons_of_pos _ (by simp)⟩
      · obtain ⟨hns, hf⟩ := ih h
        have hne : key y ≠ key x := fun he => hns (List.mem_cons.2 (Or.inl he.symm))
        refine ⟨fun hs => hns (List.mem_cons_of_mem _ hs), ?_⟩
        rw [List.find?_cons_of_neg _ (by simp [hne]), hf]

/-- A duplicate-free list whose members are exactly `{a}` is `[a]`. -/
theorem nodup_mem_singleton {α : Type} {l : List α} {a : α}
    (hn : l.Nodup) (hm : ∀ x, x ∈ l ↔ x = a) : l = [a] := by
  match l with
  | [] => exact absurd ((hm a).2 rfl) (by simp)
  | x :: xs =>
    have hx : x = a := (hm x).1 (List.mem_cons_self _ _)
    subst hx
    have hxs : xs = [] := by
      match xs with
      | [] => rfl
      | y :: ys =>
        have hy : y = x := (hm y).1 (List.mem_cons_of_mem _ (List.mem_cons_self _ _))
        subst hy
        simp at hn
    rw [hxs]

theorem foldl_sdMax_spec (xs : List SDate) (a : SDate) :
    (xs.foldl (fun a b => if sdKey a < sdKey b then b else a) a = a ∨
      xs.foldl (fun a b => if sdKey a < sdKey b then b else a) a ∈ xs) ∧
    sdKey a ≤ sdKey (xs.foldl (fun a b => if sdKey a < sdKey b then b else a) a) ∧
    ∀ x ∈ xs, sdKey x ≤ sdKey (xs.foldl (fun a b => if sdKey a < sdKey b then b else a) a) := by
  induction xs generalizing a with
  | nil => simp
  | cons y ys ih =>
    simp only [List.foldl_cons]
    by_cases h : sdKey a < sdKey y
    · rw [if_pos h]
      obtain ⟨m, le, bnd⟩ := ih y
      refine ⟨?_, le_trans (le_of_lt h) le, ?_⟩
      · rcases m with m | m
        · exact Or.inr (by rw [m]; exact List.mem_cons_self _ _)
        · exact Or.inr (List.mem_cons_of_mem _ m)
      · intro x hx
        rcases List.mem_cons.1 hx with rfl | hx
        · exact le
        · exact bnd x hx
    · rw [if_neg h]
      obtain ⟨m, le, bnd⟩ := ih a
      refine ⟨?_, le, ?_⟩
      · rcases m with m | m
        · exact Or.inl m
        · exact Or.inr (List.mem_cons_of_mem _ m)
      · intro x hx
        rcases List.mem_cons.1 hx with rfl | hx
        · exact le_trans (Nat.le_of_not_lt h) le
        · exact bnd x hx

/-- `pyMaxSD` of a nonempty list is a member and an upper bound —
Python's `max` on the candidate datetimes. -/
theorem pyMaxSD_spec {l : List SDate} (h : l ≠ []) :
    pyMaxSD l ∈ l ∧ ∀ x ∈ l, sdKey x ≤ sdKey (pyMaxSD l) := by
  match l with
  | [] => exact absurd rfl h
  | x :: xs =>
    simp only [pyMaxSD]
    obtain ⟨m, le, bnd⟩ := foldl_sdMax_spec xs x
    refine ⟨?_, ?_⟩
    · rcases m with m | m
      · rw [m]; exact List.mem_cons_self _ _
      · exact List.mem_cons_of_mem _ m
    · intro y hy
      rcases List.mem_cons.1 hy with rfl | hy
      · exact le
      · exact bnd y hy

theorem shapeOK_cons (p : Char → Bool) (ps : List (Char → Bool)) (c : Char) (cs : List Char) :
    shapeOK (p :: ps) (c :: cs) = (p c && shapeOK ps cs) := rfl

theorem shapeOK_replicate_digits {ds : List Char} (h : ∀ c ∈ ds, c.isDigit = true)
    (ps : List (Char → Bool)) (cs : List Char) :
    shapeOK (List.replicate ds.length Char.isDigit ++ ps) (ds ++ cs) = shapeOK ps cs := by
  induction ds with
  | nil => simp
  | cons c cs' ih =>
    simp only [List.length_cons, List.replicate_succ, List.cons_append, shapeOK_cons]
    rw [h c (List.mem_cons_self _ _), ih (fun x hx => h x (List.mem_cons_of_mem _ hx))]
    simp

theorem shapeOK_canon_parts {d4 d2a d2b h2 m2 s2 : List Char}
    (n4 : d4.length = 4) (na : d2a.length = 2) (nb : d2b.length = 2)
    (nh : h2.length = 2) (nm : m2.length = 2) (ns : s2.length = 2)
    (g4 : ∀ c ∈ d4, c.isDigit = true) (ga : ∀ c ∈ d2a, c.isDigit = true)
    (gb : ∀ c ∈ d2b, c.isDigit = true) (gh : ∀ c ∈ h2, c.isDigit = true)
    (gm : ∀ c ∈ m2, c.isDigit = true) (gs : ∀ c ∈ s2, c.isDigit = true) :
    shapeOK canonPattern
      (d4 ++ '-' :: (d2a ++ '-' :: (d2b ++ 'T' :: (h2 ++ ':' :: (m2 ++ ':' :: s2))))) = true := by
  have e : canonPattern =
      List.replicate d4.length Char.isDigit ++ ((fun c => c == '-') ::
      (List.replicate d2a.length Char.isDigit ++ ((fun c => c == '-') ::
      (List.replicate d2b.length Char.isDigit ++ ((fun c => c == 'T') ::
      (List.replicate h2.length Char.isDigit ++ ((fun c => c == ':') ::
      (List.replicate m2.length Char.isDigit ++ ((fun c => c == ':') ::
      List.replicate s2.length Char.isDigit))))))))) := by
    rw [n4, na, nb, nh, nm, ns]; rfl
  rw [e, shapeOK_replicate_digits g4, shapeOK_cons]
  rw [shapeOK_replicate_digits ga, shapeOK_cons]
  rw [shapeOK_replicate_digits gb, shapeOK_cons]
  rw [shapeOK_replicate_digits gh, shapeOK_cons]
  rw [shapeOK_replicate_digits gm, shapeOK_cons]
  have : ∀ (ds : List Char), (∀ c ∈ ds, c.isDigit = true) →
      shapeOK (List.replicate ds.length Char.isDigit) ds = true := by
    intro ds hds
    have := shapeOK_replicate_digits hds [] []
    simpa using this
  simp [this s2 gs]

theorem splitCanon_canonical {l r : List Char} (h : splitCanon l = some r) :
    l = l.take 19 ++ r ∧ isCanonicalTS (String.mk (l.take 19)) = true := by
  unfold splitCanon at h
  rw [Option.bind_eq_some] at h; obtain ⟨⟨d4, r1⟩, e1, h⟩ := h
  rw [Option.bind_eq_some] at h; obtain ⟨r2, e2, h⟩ := h
  rw [Option.bind_eq_some] at h; obtain ⟨⟨d2a, r3⟩, e3, h⟩ := h
  rw [Option.bind_eq_some] at h; obtain ⟨r4, e4, h⟩ := h
  rw [Option.bind_eq_some] at h; obtain ⟨⟨d2b, r5⟩, e5, h⟩ := h
  rw [Option.bind_eq_some] at h; obtain ⟨r6, e6, h⟩ := h
  rw [Option.bind_eq_some] at h; obtain ⟨⟨h2, r7⟩, e7, h⟩ := h
  rw [Option.bind_eq_some] at h; obtain ⟨r8, e8, h⟩ := h
  rw [Option.bind_eq_some] at h; obtain ⟨⟨m2, r9⟩, e9, h⟩ := h
  rw [Option.bind_eq_some] at h; obtain ⟨r10, e10, h⟩ := h
  rw [Option.map_eq_some'] at h; obtain ⟨⟨s2, r11⟩, e11, hr⟩ := h
  obtain ⟨hl1, n4, g4⟩ := exactDigits_decomp e1
  have hl2 : r1 = '-' :: r2 := expectChar_decomp e2
  obtain ⟨hl3, na, ga⟩ := exactDigits_decomp e3
  have hl4 : r3 = '-' :: r4 := expectChar_decomp e4
  obtain ⟨hl5, nb, gb⟩ := exactDigits_decomp e5
  have hl6 : r5 = 'T' :: r6 := expectChar_decomp e6
  obtain ⟨hl7, nh, gh⟩ := exactDigits_decomp e7
  have hl8 : r7 = ':' :: r8 := expectChar_decomp e8
  obtain ⟨hl9, nm, gm⟩ := exactDigits_decomp e9
  have hl10 : r9 = ':' :: r10 := expectChar_decomp e10
  obtain ⟨hl11, ns, gs⟩ := exactDigits_decomp e11
  subst hr
  have hP : l = (d4 ++ '-' :: (d2a ++ '-' :: (d2b ++ 'T' ::
      (h2 ++ ':' :: (m2 ++ ':' :: s2))))) ++ r11 := by
    rw [hl1, hl2, hl3, hl4, hl5, hl6, hl7, hl8, hl9, hl10, hl11]
    simp [List.append_assoc]
  have hPlen : (d4 ++ '-' :: (d2a ++ '-' :: (d2b ++ 'T' ::
      (h2 ++ ':' :: (m2 ++ ':' :: s2))))).length = 19 := by
    simp [List.length_append, n4, na, nb, nh, nm, ns]
  have htake : l.take 19 = d4 ++ '-' :: (d2a ++ '-' :: (d2b ++ 'T' ::
      (h2 ++ ':' :: (m2 ++ ':' :: s2)))) := by
    rw [hP, ← hPlen, List.take_left]
  refine ⟨by rw [htake, ← hP], ?_⟩
  rw [htake]
  show shapeOK canonPattern (d4 ++ '-' :: (d2a ++ '-' :: (d2b ++ 'T' ::
      (h2 ++ ':' :: (m2 ++ ':' :: s2))))) = true
  exact shapeOK_canon_parts n4 na nb nh nm ns g4 ga gb gh gm gs

theorem digitChar10_isDigit (n : Nat) : (digitChar10 n).isDigit = true := by
  have h : n % 10 < 10 := Nat.mod_lt _ (by norm_num)
  unfold digitChar10
  generalize n % 10 = k at h
  interval_cases k <;> decide

theorem formatPyDT_canonical (d : PyDateTime) : isCanonicalTS (formatPyDT d) = true := by
  show shapeOK canonPattern (formatPyDT d).data = true
  have e : (formatPyDT d).data =
      (pad4 d.year).data ++ '-' :: ((pad2 d.month).data ++ '-' :: ((pad2 d.day).data ++ 'T' ::
      ((pad2 d.hour).data ++ ':' :: ((pad2 d.minute).data ++ ':' :: (pad2 d.second).data)))) := by
    simp [formatPyDT, String.data_append]
  rw [e]
  refine shapeOK_canon_parts (by simp [pad4]) (by simp [pad2]) (by simp [pad2])
    (by simp [pad2]) (by simp [pad2]) (by simp [pad2]) ?_ ?_ ?_ ?_ ?_ ?_ <;>
    · intro c hc
      simp only [pad4, pad2] at hc
      fin_cases hc <;> exact digitChar10_isDigit _

/-- Any `some` result of `normalize_date_value` is a canonical
`YYYY-MM-DDTHH:MM:SS` timestamp, whatever the fallback parser returns. -/
theorem normalize_date_value_canonical (dp : String → Option PyDateTime)
    (value out : String) (h : normalize_date_value dp value = some out) :
    isCanonicalTS out = true := by
  unfold normalize_date_value at h
  by_cases hv : value = ""
  · rw [if_pos hv] at h; simp at h
  · rw [if_neg hv] at h
    by_cases h1 : isoSuffixMatch (pyStrip value).data
    · rw [if_pos h1] at h
      cases Option.some.inj h
      unfold isoSuffixMatch at h1
      cases hsc : splitCanon (pyStrip value).data with
      | none => rw [hsc] at h1; simp at h1
      | some r => exact (splitCanon_canonical hsc).2
    · rw [if_neg h1] at h
      by_cases h2 : isoOffsetMatch (pyStrip value).data
      · rw [if_pos h2] at h
        cases Option.some.inj h
        unfold isoOffsetMatch at h2
        cases hsc : splitCanon (pyStrip value).data with
        | none => rw [hsc] at h2; simp at h2
        | some r => exact (splitCanon_canonical hsc).2
      · rw [if_neg h2] at h
        rw [Option.map_eq_some'] at h
        obtain ⟨d, _, rfl⟩ := h
        exact formatPyDT_canonical d

/-! ### Claim C1 -/

/-- C1: for every document whose `date` field is set (truthy) on input,
`ensure_document_has_date` either replaces the value with a canonical
`YYYY-MM-DDTHH:MM:SS` string or removes the `date` field entirely —
never leaving a non-canonical value — whatever the fallback
`dateparser` oracle does; and in particular the direct pattern branch
truncates `2025-12-20T06:38:53.990Z` to `2025-12-20T06:38:53`. -/
theorem C1_date_normalize_canonical_or_dropped
    (dp : String → Option PyDateTime) (doc : Document) (s : String)
    (hset : doc.date = some s) (hne : s ≠ "") :
    ((ensure_document_has_date dp doc).date = none ∨
      ∃ out, (ensure_document_has_date dp doc).date = some out ∧
        isCanonicalTS out = true) ∧
    normalize_date_value dp "2025-12-20T06:38:53.990Z" = some "2025-12-20T06:38:53" := by
  constructor
  · have ht : dateTruthy doc = true := by simp [dateTruthy, hset, hne]
    unfold ensure_document_has_date
    rw [if_pos ht]
    cases hnv : normalize_date_value dp (doc.date.getD "") with
    | none =>
      left
      simp only [hnv]
      cases doc.extracted_dates <;> simp
    | some out =>
      right
      refine ⟨out, ?_, normalize_date_value_canonical dp _ out hnv⟩
      simp only [hnv]
      cases doc.extracted_dates <;> simp
  · unfold normalize_date_value
    rw [if_neg (by decide), if_pos (by decide)]
    decide

def docC1 : Document := { date := some "2025-12-20T06:38:53.990Z" }

theorem C1_date_normalize_canonical_or_dropped_witness :
    docC1.date = some "2025-12-20T06:38:53.990Z" ∧ "2025-12-20T06:38:53.990Z" ≠ "" ∧
    (((ensure_document_has_date (fun _ => none) docC1).date = none ∨
      ∃ out, (ensure_document_has_date (fun _ => none) docC1).date = some out ∧
        isCanonicalTS out = true) ∧
     normalize_date_value (fun _ => none) "2025-12-20T06:38:53.990Z" =
       some "2025-12-20T06:38:53") :=
  ⟨rfl, by decide,
    C1_date_normalize_canonical_or_dropped (fun _ => none) docC1 _ rfl (by decide)⟩

/-! ### Claim C2 -/

/-- C2: for every document with `date` absent, enrichment extracts
candidates from `title + " " + content`; with candidates present it sets
`date` to the latest (maximum) candidate in canonical rendering and
`extracted_dates` to the whole list; with none it leaves `date` absent
and sets `extracted_dates = []`. -/
theorem C2_date_inferred_from_text
    (dp : String → Option PyDateTime) (doc : Document) (habs : doc.date = none) :
    (parse_date_candidates_from_text
        (pyStrip ((doc.title.getD "") ++ " " ++ (doc.content.getD ""))) 10 = [] →
      (ensure_document_has_date dp doc).date = none ∧
      (ensure_document_has_date dp doc).extracted_dates = some []) ∧
    (parse_date_candidates_from_text
        (pyStrip ((doc.title.getD "") ++ " " ++ (doc.content.getD ""))) 10 ≠ [] →
      ∃ c, c ∈ parse_date_candidates_from_text
          (pyStrip ((doc.title.getD "") ++ " " ++ (doc.content.getD ""))) 10 ∧
        (∀ x ∈ parse_date_candidates_from_text
            (pyStrip ((doc.title.getD "") ++ " " ++ (doc.content.getD ""))) 10,
          sdKey x ≤ sdKey c) ∧
        (ensure_document_has_date dp doc).date = some (fmtT0 c) ∧
        (ensure_document_has_date dp doc).extracted_dates =
          some ((parse_date_candidates_from_text
            (pyStrip ((doc.title.getD "") ++ " " ++ (doc.content.getD ""))) 10).map fmtT0)) := by
  have ht : dateTruthy doc = false := by simp [dateTruthy, habs]
  unfold ensure_document_has_date
  rw [if_neg (by simp [ht])]
  cases hc : parse_date_candidates_from_text
      (pyStrip ((doc.title.getD "") ++ " " ++ (doc.content.getD ""))) 10 with
  | nil =>
    refine ⟨fun _ => ?_, fun hne => absurd rfl hne⟩
    simp [hc, habs]
  | cons c0 cs =>
    refine ⟨fun he => absurd he (by simp), fun _ => ?_⟩
    obtain ⟨hmem, hmax⟩ := pyMaxSD_spec (show c0 :: cs ≠ [] by simp)
    refine ⟨pyMaxSD (c0 :: cs), hmem, hmax, ?_, ?_⟩ <;> simp [hc]

def docC2 : Document := { title := some "Summit on 1987-02-26", content := some "held 03/01/1987." }

theorem C2_date_inferred_from_text_witness :
    docC2.date = none ∧
    ((parse_date_candidates_from_text
        (pyStrip ((docC2.title.getD "") ++ " " ++ (docC2.content.getD ""))) 10 = [] →
      (ensure_document_has_date (fun _ => none) docC2).date = none ∧
      (ensure_document_has_date (fun _ => none) docC2).extracted_dates = some []) ∧
    (parse_date_candidates_from_text
        (pyStrip ((docC2.title.getD "") ++ " " ++ (docC2.content.getD ""))) 10 ≠ [] →
      ∃ c, c ∈ parse_date_candidates_from_text
          (pyStrip ((docC2.title.getD "") ++ " " ++ (docC2.content.getD ""))) 10 ∧
        (∀ x ∈ parse_date_candidates_from_text
            (pyStrip ((docC2.title.getD "") ++ " " ++ (docC2.content.getD ""))) 10,
          sdKey x ≤ sdKey c) ∧
        (ensure_document_has_date (fun _ => none) docC2).date = some (fmtT0 c) ∧
        (ensure_document_has_date (fun _ => none) docC2).extracted_dates =
          some ((parse_date_candidates_from_text
            (pyStrip ((docC2.title.getD "") ++ " " ++ (docC2.content.getD ""))) 10).map fmtT0))) :=
  ⟨rfl, C2_date_inferred_from_text (fun _ => none) docC2 rfl⟩

/-! ### Claim C9 -/

/-- C9: for every text the candidate list is deduplicated by calendar
day keeping the first occurrence (each entry is the first raw scan match
of its day), order-preserving (a sublist of the raw scan), and capped at
10; in particular a text containing both `1987-02-26` and `02/26/1987`
yields the single candidate 1987-02-26. -/
theorem C9_candidates_dedup_by_day (text : String) :
    (parse_date_candidates_from_text text 10).Nodup ∧
    (parse_date_candidates_from_text text 10).length ≤ 10 ∧
    (parse_date_candidates_from_text text 10).Sublist (rawDateCandidates text) ∧
    (∀ d ∈ parse_date_candidates_from_text text 10,
      (rawDateCandidates text).find? (fun y => decide (y = d)) = some d) ∧
    parse_date_candidates_from_text "1987-02-26 02/26/1987" 10 = [⟨1987, 2, 26⟩] := by
  by_cases h : text = ""
  · refine ⟨?_, ?_, ?_, ?_, by decide⟩ <;> simp [parse_date_candidates_from_text, h]
  · have hunf : parse_date_candidates_from_text text 10 =
        (dedupByKey id (rawDateCandidates text) []).take 10 := by
      unfold parse_date_candidates_from_text
      rw [if_neg h]
    refine ⟨?_, ?_, ?_, ?_, by decide⟩
    · rw [hunf]
      have hk := (dedupByKey_keys id (rawDateCandidates text) []).1
      rw [List.map_id] at hk
      exact hk.sublist (List.take_sublist _ _)
    · rw [hunf]; exact List.length_take_le _ _
    · rw [hunf]
      exact (List.take_sublist _ _).trans (dedupByKey_sublist id (rawDateCandidates text) [])
    · intro d hd
      rw [hunf] at hd
      have hmem := (List.take_sublist _ _).mem hd
      have := (dedupByKey_first_occ hmem).2
      simpa using this

/-! ### Claim C3 -/

theorem scanP_eq_nil {α : Type} (f : Option Char → List Char → Option (α × Nat))
    (P : Char → Prop)
    (hf : ∀ prev l, (∀ c ∈ l, P c) → f prev l = none) :
    ∀ (fuel : Nat) (prev : Option Char) (l : List Char),
      (∀ c ∈ l, P c) → scanP f fuel prev l = [] := by
  intro fuel
  induction fuel with
  | zero => intro prev l _; rfl
  | succ n ih =>
    intro prev l hl
    cases l with
    | nil => rfl
    | cons c cs =>
      have hnone := hf prev (c :: cs) hl
      simp only [scanP, hnone]
      exact ih (some c) cs (fun x hx => hl x (List.mem_cons_of_mem _ hx))

/-- The eleven characters a year-only text may consist of. -/
def yearOnlyChars : List Char := "0123456789 ".data

theorem matchIsoCore_none {l : List Char} (h : ∀ c ∈ l, c ∈ yearOnlyChars) :
    matchIsoCore l = none := by
  cases hm : matchIsoCore l with
  | none => rfl
  | some v =>
    exfalso
    unfold matchIsoCore at hm
    rw [Option.bind_eq_some] at hm; obtain ⟨⟨d4, r1⟩, e1, hm⟩ := hm
    rw [Option.bind_eq_some] at hm; obtain ⟨r2, e2, _⟩ := hm
    have hr1 : r1 = '-' :: r2 := expectChar_decomp e2
    have hl := (exactDigits_decomp e1).1
    have hdash : '-' ∈ l := by rw [hl, hr1]; simp
    exact absurd (h '-' hdash) (by decide)

theorem matchIso_none {prev : Option Char} {l : List Char}
    (h : ∀ c ∈ l, c ∈ yearOnlyChars) : matchIso prev l = none := by
  unfold matchIso
  rw [matchIsoCore_none h]
  simp

theorem usCombo_none {ml dl yl : Nat} {l : List Char} (h : ∀ c ∈ l, c ∈ yearOnlyChars) :
    usCombo ml dl yl l = none := by
  cases hm : usCombo ml dl yl l with
  | none => rfl
  | some v =>
    exfalso
    unfold usCombo at hm
    rw [Option.bind_eq_some] at hm; obtain ⟨⟨d1, r1⟩, e1, hm⟩ := hm
    rw [Option.bind_eq_some] at hm; obtain ⟨r2, e2, _⟩ := hm
    have hr1 : r1 = '/' :: r2 := expectChar_decomp e2
    have hl := (exactDigits_decomp e1).1
    have hsl : '/' ∈ l := by rw [hl, hr1]; simp
    exact absurd (h '/' hsl) (by decide)

theorem matchUs_none {prev : Option Char} {l : List Char}
    (h : ∀ c ∈ l, c ∈ yearOnlyChars) : matchUs prev l = none := by
  unfold matchUs matchUsCore
  simp [usCombo_none h]

theorem matchCaseless_head {p : Char} {ps l r : List Char}
    (h : matchCaseless (p :: ps) l = some r) :
    ∃ c cs, l = c :: cs ∧ c.toLower = p := by
  cases l with
  | nil => simp [matchCaseless] at h
  | cons c cs =>
    have h2 : (if c.toLower = p then matchCaseless ps cs else none) = some r := h
    by_cases htl : c.toLower = p
    · exact ⟨c, cs, rfl, htl⟩
    · rw [if_neg htl] at h2; simp at h2

theorem tryMonth_none {nm : String} {mnum : Nat} {l : List Char}
    (hmem : (nm, mnum) ∈ monthNames) (h : ∀ c ∈ l, c ∈ yearOnlyChars) :
    tryMonth nm mnum l = none := by
  cases hm : tryMonth nm mnum l with
  | none => rfl
  | some v =>
    exfalso
    unfold tryMonth at hm
    rw [Option.bind_eq_some] at hm; obtain ⟨r1, e1, _⟩ := hm
    fin_cases hmem <;>
    · obtain ⟨c, cs, hl, htl⟩ := matchCaseless_head e1
      have hcm := h c (by rw [hl]; exact List.mem_cons_self _ _)
      fin_cases hcm <;> simp_all

theorem matchMonth_none {prev : Option Char} {l : List Char}
    (h : ∀ c ∈ l, c ∈ yearOnlyChars) : matchMonth prev l = none := by
  unfold matchMonth matchMonthCore
  have hfold : ∀ (L : List (String × Nat)), (∀ p ∈ L, (p.1, p.2) ∈ monthNames) →
      L.foldr (fun p acc => tryMonth p.1 p.2 l <|> acc) none = none := by
    intro L
    induction L with
    | nil => intro _; rfl
    | cons q qs ih =>
      intro hq
      simp only [List.foldr_cons]
      rw [tryMonth_none (hq q (List.mem_cons_self _ _)) h, ih
        (fun p hp => hq p (List.mem_cons_of_mem _ hp))]
      rfl
  rw [hfold monthNames (fun p hp => by simpa using hp)]
  simp

theorem dedupByKey_complete {α : Type} [DecidableEq α] {l : List α} (seen : List α) {x : α}
    (h : x ∈ l) : x ∈ dedupByKey id l seen ∨ x ∈ seen := by
  induction l generalizing seen with
  | nil => simp at h
  | cons y ys ih =>
    simp only [dedupByKey, id]
    rcases List.mem_cons.1 h with rfl | h
    · by_cases hy : x ∈ seen
      · exact Or.inr hy
      · rw [if_neg hy]; exact Or.inl (List.mem_cons_self _ _)
    · by_cases hy : y ∈ seen
      · rw [if_pos hy]; exact ih seen h
      · rw [if_neg hy]
        rcases ih (y :: seen) h with hin | hin
        · exact Or.inl (List.mem_cons_of_mem _ hin)
        · rcases List.mem_cons.1 hin with rfl | hin
          · exact Or.inl (List.mem_cons_self _ _)
          · exact Or.inr hin

/-- `pyDedupFirst` is an admissible model of `list(set(...))`. -/
theorem pyDedupFirst_setOrderOK : SetOrderOK pyDedupFirst := by
  intro l
  constructor
  · have hk := (dedupByKey_keys id l []).1
    rw [List.map_id] at hk
    exact hk
  · intro x
    constructor
    · exact fun hx => dedupByKey_mem hx
    · intro hx
      rcases dedupByKey_complete [] hx with hin | hin
      · exact hin
      · simp at hin

/-- C3: for every setting of the set-order oracle and every text made of
digits and spaces only (hence where the only temporal patterns are bare
years), the date-candidate list is empty, while the bare year `"1999"`
does appear in `temporal_expressions` of the text `"1999"`. -/
theorem C3_bare_year_never_a_candidate
    (ord : List String → List String) (text : String)
    (hord : SetOrderOK ord) (htext : ∀ c ∈ text.data, c ∈ yearOnlyChars) :
    parse_date_candidates_from_text text 10 = [] ∧
    extract_temporal_expressions ord "1999" = ["1999"] := by
  constructor
  · unfold parse_date_candidates_from_text
    by_cases h : text = ""
    · rw [if_pos h]
    · rw [if_neg h]
      have hiso : findAll matchIso text.data = [] :=
        scanP_eq_nil _ (fun c => c ∈ yearOnlyChars) (fun _ _ hp => matchIso_none hp)
          _ _ _ htext
      have hus : findAll matchUs text.data = [] :=
        scanP_eq_nil _ (fun c => c ∈ yearOnlyChars) (fun _ _ hp => matchUs_none hp)
          _ _ _ htext
      have hmon : findAll matchMonth text.data = [] :=
        scanP_eq_nil _ (fun c => c ∈ yearOnlyChars) (fun _ _ hp => matchMonth_none hp)
          _ _ _ htext
      unfold rawDateCandidates
      rw [hiso, hus, hmon]
      rfl
  · have hm : temporalMatches "1999" = ["1999"] := by decide
    have hone : ord ["1999"] = ["1999"] := by
      obtain ⟨hnd, hmem⟩ := hord ["1999"]
      exact nodup_mem_singleton hnd (fun x => by simpa using hmem x)
    unfold extract_temporal_expressions
    rw [hm, hone]
    rfl

theorem C3_bare_year_never_a_candidate_witness :
    SetOrderOK pyDedupFirst ∧ (∀ c ∈ ("1999" : String).data, c ∈ yearOnlyChars) ∧
    (parse_date_candidates_from_text "1999" 10 = [] ∧
      extract_temporal_expressions pyDedupFirst "1999" = ["1999"]) :=
  ⟨pyDedupFirst_setOrderOK, by decide,
    C3_bare_year_never_a_candidate pyDedupFirst "1999" pyDedupFirst_setOrderOK (by decide)⟩

/-! ### Claim C6 -/

/-- An admissible hash-order model that happens to enumerate the set in
reverse first-occurrence order. -/
def revOrder (l : List String) : List String :=
  (pyDedupFirst l).reverse

theorem revOrder_setOrderOK : SetOrderOK revOrder := by
  intro l
  obtain ⟨hnd, hmem⟩ := pyDedupFirst_setOrderOK l
  refine ⟨by simpa [revOrder] using hnd, fun x => ?_⟩
  simp only [revOrder, List.mem_reverse]
  exact hmem x

/-- C6 counterexample: the claim says `temporal_expressions` is truncated
to the first 10 *in scan order*; but the code computes
`list(set(expressions))[:10]`, whose enumeration order is unspecified —
an admissible set order produces `["2000", "1999"]` on the text
`"1999 2000"` instead of the scan-order `["1999", "2000"]`. -/
theorem C6_counterexample :
    SetOrderOK revOrder ∧
    extract_temporal_expressions revOrder "1999 2000" ≠ specScanFirstTen "1999 2000" ∧
    extract_temporal_expressions revOrder "1999 2000" = ["2000", "1999"] ∧
    specScanFirstTen "1999 2000" = ["1999", "2000"] :=
  ⟨revOrder_setOrderOK, by decide, by decide, by decide⟩

/-- C6 amended: for every admissible set-enumeration order,
`extract_temporal_expressions` returns a duplicate-free list of at most
10 entries drawn from the pattern matches (scanned in the order: bare
years, month-name dates, slashed dates, ISO dates, with no NER
involved); which 10 survive and their order are unspecified (Python
set/hash order). -/
theorem C6_temporal_expressions_dedup_truncate
    (ord : List String → List String) (text : String) (hord : SetOrderOK ord) :
    (extract_temporal_expressions ord text).Nodup ∧
    (extract_temporal_expressions ord text).length ≤ 10 ∧
    ∀ x ∈ extract_temporal_expressions ord text, x ∈ temporalMatches text := by
  obtain ⟨hnd, hmem⟩ := hord (temporalMatches text)
  refine ⟨hnd.sublist (List.take_sublist _ _), List.length_take_le _ _, ?_⟩
  intro x hx
  exact (hmem x).1 ((List.take_sublist _ _).mem hx)

theorem C6_temporal_expressions_dedup_truncate_witness :
    SetOrderOK pyDedupFirst ∧
    ((extract_temporal_expressions pyDedupFirst "1999 2000").Nodup ∧
      (extract_temporal_expressions pyDedupFirst "1999 2000").length ≤ 10 ∧
      ∀ x ∈ extract_temporal_expressions pyDedupFirst "1999 2000",
        x ∈ temporalMatches "1999 2000") :=
  ⟨pyDedupFirst_setOrderOK,
    C6_temporal_expressions_dedup_truncate pyDedupFirst "1999 2000" pyDedupFirst_setOrderOK⟩

/-! ### Claim C8 -/

theorem removeDuplicatesGo_sublist (l : List Hit) (seen : List String) :
    (removeDuplicatesGo l seen).Sublist l := by
  induction l generalizing seen with
  | nil => simp [removeDuplicatesGo]
  | cons x xs ih =>
    simp only [removeDuplicatesGo]
    by_cases h : hitKey x ≠ "" ∧ hitKey x ∉ seen
    · rw [if_pos (by simp [h.1, h.2])]
      exact (ih (hitKey x :: seen)).cons₂ x
    · rw [if_neg (by simpa using h)]
      exact (ih seen).cons x

theorem removeDuplicatesGo_keys (l : List Hit) (seen : List String) :
    ((removeDuplicatesGo l seen).map hitKey).Nodup ∧
      ∀ b ∈ (removeDuplicatesGo l seen).map hitKey, b ∉ seen ∧ b ≠ "" := by
  induction l generalizing seen with
  | nil => simp [removeDuplicatesGo]
  | cons x xs ih =>
    simp only [removeDuplicatesGo]
    by_cases h : hitKey x ≠ "" ∧ hitKey x ∉ seen
    · rw [if_pos (by simp [h.1, h.2])]
      obtain ⟨ih1, ih2⟩ := ih (hitKey x :: seen)
      simp only [List.map_cons, List.nodup_cons]
      refine ⟨⟨fun hmem => ?_, ih1⟩, ?_⟩
      · exact (ih2 _ hmem).1 (List.mem_cons_self _ _)
      · intro b hb
        rcases List.mem_cons.1 hb with rfl | hb
        · exact ⟨h.2, h.1⟩
        · exact ⟨fun hbs => (ih2 b hb).1 (List.mem_cons_of_mem _ hbs), (ih2 b hb).2⟩
    · rw [if_neg (by simpa using h)]
      exact ih seen

/-- The hit whose title normalizes to the empty key. -/
def hitEmptyTitle : Hit := ⟨some "  ", 0⟩

/-- C8 counterexample: the claim says dedup keeps the first occurrence of
*each* normalized title, but `remove_duplicates` drops every hit whose
normalized title is empty, so it differs from plain first-occurrence
dedup (`specDedupByTitle`). -/
theorem C8_counterexample :
    remove_duplicates [hitEmptyTitle] = [] ∧
    specDedupByTitle [hitEmptyTitle] = [hitEmptyTitle] ∧
    remove_duplicates [hitEmptyTitle] ≠ specDedupByTitle [hitEmptyTitle] :=
  ⟨by decide, by decide, by decide⟩

/-- C8 amended: post-processing deduplicates the raw hits by normalized
(lowercased, trimmed) title, keeping the first occurrence of each
nonempty normalized title and dropping hits whose normalized title is
empty, then truncates to the requested size, and the underlying search
over-fetches three times the requested size; consequently the returned
list has pairwise-distinct normalized titles, is a subsequence of the
raw hits, and has length at most the requested size. -/
theorem C8_dedup_then_truncate (hits : List Hit) (size : Nat)
    (q t g : String) :
    ((smart_search_post hits size).map hitKey).Nodup ∧
    (smart_search_post hits size).length ≤ size ∧
    (smart_search_post hits size).Sublist hits ∧
    (smart_search_query q t g size).size = size * 3 := by
  refine ⟨?_, ?_, ?_, rfl⟩
  · exact ((removeDuplicatesGo_keys hits []).1).sublist
      ((List.take_sublist _ _).map hitKey)
  · exact List.length_take_le _ _
  · exact (List.take_sublist _ _).trans (removeDuplicatesGo_sublist hits [])

/-! ### Claim C10 -/

/-- C10: when the query text is empty or absent (strips to the empty
string), the assembled query has an empty `must` list, an empty `filter`
list and `minimum_should_match = 0`, so under the engine's bool-query
semantics no document is excluded, whatever the temporal and geographic
hints are — they only contribute optional `should` clauses. -/
theorem C10_empty_text_excludes_nothing
    (query temporal geo : String) (size : Nat)
    (hq : pyStrip query = "") :
    (smart_search_query query temporal geo size).must = [] ∧
    (smart_search_query query temporal geo size).filter = [] ∧
    (smart_search_query query temporal geo size).minimum_should_match = 0 ∧
    ∀ sat : Leaf → Bool, querySat sat (smart_search_query query temporal geo size) = true := by
  have hmust : (smart_search_query query temporal geo size).must = [] := by
    unfold smart_search_query
    simp [hq]
  refine ⟨hmust, rfl, rfl, fun sat => ?_⟩
  unfold querySat
  rw [hmust, show (smart_search_query query temporal geo size).filter = [] from rfl,
    show (smart_search_query query temporal geo size).minimum_should_match = 0 from rfl]
  simp

theorem C10_empty_text_excludes_nothing_witness :
    pyStrip "" = "" ∧
    ((smart_search_query "" "1987" "Japan" 10).must = [] ∧
     (smart_search_query "" "1987" "Japan" 10).filter = [] ∧
     (smart_search_query "" "1987" "Japan" 10).minimum_should_match = 0 ∧
     ∀ sat : Leaf → Bool, querySat sat (smart_search_query "" "1987" "Japan" 10) = true) :=
  ⟨by decide, C10_empty_text_excludes_nothing "" "1987" "Japan" 10 (by decide)⟩

/-! ### Claim C5 -/

/-- C5 counterexample: for the bare-year hint `"1987"` the code produces
the OR of an *unboosted* `date` range (effective weight 1.0) and a
`temporal_expressions` match with boost 2.0 — so the year-range is
weighted *lower* than the `temporal_expressions` match, not higher as
the claim states. -/
theorem C5_counterexample :
    parse_temporal_to_date_filter "1987" =
      some (.boolShould
        [.rangeQ "date" "1987-01-01T00:00:00" "1988-01-01T00:00:00" none,
         .matchQ "temporal_expressions" "1987" (some 2) none] 1) ∧
    ¬ (effBoost (some 2) < effBoost none) ∧
    effBoost none < effBoost (some 2) :=
  ⟨by decide, by decide, by decide⟩

/-- C5 amended: a non-empty temporal hint resolves, in priority order, to
(1) a one-day `[date, date+1)` range for a `strptime`-accepted
`YYYY-MM-DD` or `MM/DD/YYYY` date whose next day is representable,
(2) for a bare 4-digit year, an OR of a calendar-year `date` range and a
`temporal_expressions` match, with the match boosted *higher* (2.0 vs
the range's default 1.0), and (3) otherwise a `temporal_expressions`
match alone (boost 1.5); smart_search always places the resulting clause
(a range wrapped as `constant_score` boost 3) among the optional
`should` clauses with `minimum_should_match = 0` and an empty `filter`,
never as a required clause. -/
theorem C5_temporal_hint_trichotomy (t : String) (ht : pyStrip t ≠ "") :
    (∀ d d2, (strptimeYmd (pyStrip t)).bind
        (fun d => (addOneDay d).map (fun d2 => (d, d2))) = some (d, d2) →
      parse_temporal_to_date_filter t =
        some (.leaf (.rangeQ "date" (fmtT0 d) (fmtT0 d2) none))) ∧
    ((strptimeYmd (pyStrip t)).bind
        (fun d => (addOneDay d).map (fun d2 => (d, d2))) = none →
      ∀ d d2, (strptimeMdy (pyStrip t)).bind
          (fun d => (addOneDay d).map (fun d2 => (d, d2))) = some (d, d2) →
        parse_temporal_to_date_filter t =
          some (.leaf (.rangeQ "date" (fmtT0 d) (fmtT0 d2) none))) ∧
    ((strptimeYmd (pyStrip t)).bind
        (fun d => (addOneDay d).map (fun d2 => (d, d2))) = none →
      (strptimeMdy (pyStrip t)).bind
        (fun d => (addOneDay d).map (fun d2 => (d, d2))) = none →
      isYear4 (pyStrip t) = true →
      parse_temporal_to_date_filter t =
        some (.boolShould
          [.rangeQ "date" (toString (natOfDigits (pyStrip t).data) ++ "-01-01T00:00:00")
                   (toString (natOfDigits (pyStrip t).data + 1) ++ "-01-01T00:00:00") none,
           .matchQ "temporal_expressions" (pyStrip t) (some 2) none] 1) ∧
      effBoost none < effBoost (some 2)) ∧
    ((strptimeYmd (pyStrip t)).bind
        (fun d => (addOneDay d).map (fun d2 => (d, d2))) = none →
      (strptimeMdy (pyStrip t)).bind
        (fun d => (addOneDay d).map (fun d2 => (d, d2))) = none →
      isYear4 (pyStrip t) = false →
      parse_temporal_to_date_filter t =
        some (.leaf (.matchQ "temporal_expressions" (pyStrip t) (some ratThreeHalves) none))) ∧
    (∃ tfc, parse_temporal_to_date_filter (pyStrip t) = some tfc ∧
      ∀ qt geo size,
        (smart_search_query qt t geo size).should =
          wrapTemporal tfc ::
            (if pyStrip geo ≠ "" then
              [Clause.leaf (.termQ "georeferences.keyword" (pyStrip geo) (some 60)),
               Clause.leaf (.matchQ "georeferences" (pyStrip geo) (some 15) none)]
             else []) ∧
        (smart_search_query qt t geo size).filter = [] ∧
        (smart_search_query qt t geo size).minimum_should_match = 0) := by
  have htne : t ≠ "" := fun h => ht (by rw [h]; rfl)
  refine ⟨?_, ?_, ?_, ?_, ?_⟩
  · intro d d2 he
    simp only [parse_temporal_to_date_filter, if_neg htne, he]
  · intro h1 d d2 h2
    simp only [parse_temporal_to_date_filter, if_neg htne, h1, h2]
  · intro h1 h2 hy
    refine ⟨?_, by decide⟩
    simp only [parse_temporal_to_date_filter, if_neg htne, h1, h2, hy, if_pos]
  · intro h1 h2 hy
    simp only [parse_temporal_to_date_filter, if_neg htne, h1, h2, hy]
    simp
  · have hsome : (parse_temporal_to_date_filter (pyStrip t)).isSome = true := by
      cases h1 : (strptimeYmd (pyStrip (pyStrip t))).bind
          (fun d => (addOneDay d).map (fun d2 => (d, d2))) with
      | some p =>
        obtain ⟨d, d2⟩ := p
        simp [parse_temporal_to_date_filter, if_neg ht, h1]
      | none =>
        cases h2 : (strptimeMdy (pyStrip (pyStrip t))).bind
            (fun d => (addOneDay d).map (fun d2 => (d, d2))) with
        | some p =>
          obtain ⟨d, d2⟩ := p
          simp [parse_temporal_to_date_filter, if_neg ht, h1, h2]
        | none =>
          by_cases hy : isYear4 (pyStrip (pyStrip t)) = true
          · simp [parse_temporal_to_date_filter, if_neg ht, h1, h2, hy]
          · simp [parse_temporal_to_date_filter, if_neg ht, h1, h2, hy]
    obtain ⟨tfc, htfc⟩ := Option.isSome_iff_exists.1 hsome
    refine ⟨tfc, htfc, fun qt geo size => ?_⟩
    refine ⟨?_, rfl, rfl⟩
    unfold smart_search_query
    simp only [if_pos ht, htfc]
    rfl

theorem C5_temporal_hint_trichotomy_witness :
    pyStrip "1987" ≠ "" ∧
    ((∀ d d2, (strptimeYmd (pyStrip "1987")).bind
        (fun d => (addOneDay d).map (fun d2 => (d, d2))) = some (d, d2) →
      parse_temporal_to_date_filter "1987" =
        some (.leaf (.rangeQ "date" (fmtT0 d) (fmtT0 d2) none))) ∧
    ((strptimeYmd (pyStrip "1987")).bind
        (fun d => (addOneDay d).map (fun d2 => (d, d2))) = none →
      ∀ d d2, (strptimeMdy (pyStrip "1987")).bind
          (fun d => (addOneDay d).map (fun d2 => (d, d2))) = some (d, d2) →
        parse_temporal_to_date_filter "1987" =
          some (.leaf (.rangeQ "date" (fmtT0 d) (fmtT0 d2) none))) ∧
    ((strptimeYmd (pyStrip "1987")).bind
        (fun d => (addOneDay d).map (fun d2 => (d, d2))) = none →
      (strptimeMdy (pyStrip "1987")).bind
        (fun d => (addOneDay d).map (fun d2 => (d, d2))) = none →
      isYear4 (pyStrip "1987") = true →
      parse_temporal_to_date_filter "1987" =
        some (.boolShould
          [.rangeQ "date" (toString (natOfDigits (pyStrip "1987").data) ++ "-01-01T00:00:00")
                   (toString (natOfDigits (pyStrip "1987").data + 1) ++ "-01-01T00:00:00") none,
           .matchQ "temporal_expressions" (pyStrip "1987") (some 2) none] 1) ∧
      effBoost none < effBoost (some 2)) ∧
    ((strptimeYmd (pyStrip "1987")).bind
        (fun d => (addOneDay d).map (fun d2 => (d, d2))) = none →
      (strptimeMdy (pyStrip "1987")).bind
        (fun d => (addOneDay d).map (fun d2 => (d, d2))) = none →
      isYear4 (pyStrip "1987") = false →
      parse_temporal_to_date_filter "1987" =
        some (.leaf (.matchQ "temporal_expressions" (pyStrip "1987")
          (some ratThreeHalves) none))) ∧
    (∃ tfc, parse_temporal_to_date_filter (pyStrip "1987") = some tfc ∧
      ∀ qt geo size,
        (smart_search_query qt "1987" geo size).should =
          wrapTemporal tfc ::
            (if pyStrip geo ≠ "" then
              [Clause.leaf (.termQ "georeferences.keyword" (pyStrip geo) (some 60)),
               Clause.leaf (.matchQ "georeferences" (pyStrip geo) (some 15) none)]
             else []) ∧
        (smart_search_query qt "1987" geo size).filter = [] ∧
        (smart_search_query qt "1987" geo size).minimum_should_match = 0)) :=
  ⟨by decide, C5_temporal_hint_trichotomy "1987" (by decide)⟩

/-! ### Claim C4 -/

/-- The spec's normalization key for georeferences: lowercase,
internal whitespace collapsed, trimmed. -/
def geoNormKey (s : String) : String :=
  pyLower (pyStrip (collapseWs s))

/-- Every whitespace character of the string is a plain space. -/
def wsOnlySpace (l : List Char) : Prop :=
  ∀ c ∈ l, pyIsWs c = true → c = ' '

/-- No two adjacent whitespace characters. -/
def noWsRun (l : List Char) : Prop :=
  l.Chain' (fun a b => ¬(pyIsWs a = true ∧ pyIsWs b = true))

theorem collapseWsGo_spec : ∀ (b : Bool) (l : List Char),
    wsOnlySpace (collapseWsGo b l) ∧ noWsRun (collapseWsGo b l) ∧
      (b = true → ∀ c cs, collapseWsGo b l = c :: cs → pyIsWs c = false) := by
  intro b l
  induction l generalizing b with
  | nil => exact ⟨by simp [wsOnlySpace, collapseWsGo], by simp [noWsRun, collapseWsGo],
      by intro _ c cs h; simp [collapseWsGo] at h⟩
  | cons c cs ih =>
    by_cases hc : pyIsWs c = true
    · cases b with
      | true =>
        have h1 : collapseWsGo true (c :: cs) = collapseWsGo true cs := by
          simp [collapseWsGo, hc]
        rw [h1]
        exact (ih true)
      | false =>
        have h1 : collapseWsGo false (c :: cs) = ' ' :: collapseWsGo true cs := by
          simp [collapseWsGo, hc]
        rw [h1]
        obtain ⟨iw, inr, ihd⟩ := ih true
        refine ⟨?_, ?_, by intro h; simp at h⟩
        · intro x hx hxw
          rcases List.mem_cons.1 hx with rfl | hx
          · rfl
          · exact iw x hx hxw
        · rw [noWsRun, List.chain'_cons']
          refine ⟨?_, inr⟩
          intro y hy
          cases hcg : collapseWsGo true cs with
          | nil => rw [hcg] at hy; simp at hy
          | cons z zs =>
            rw [hcg] at hy
            simp only [List.head?_cons, Option.mem_def, Option.some.injEq] at hy
            have := ihd rfl z zs hcg
            subst hy
            simp [this]
    · have h1 : collapseWsGo b (c :: cs) = c :: collapseWsGo false cs := by
        cases b <;> simp [collapseWsGo, hc]
      rw [h1]
      obtain ⟨iw, inr, _⟩ := ih false
      refine ⟨?_, ?_, ?_⟩
      · intro x hx hxw
        rcases List.mem_cons.1 hx with rfl | hx
        · exact absurd hxw (by simp [hc])
        · exact iw x hx hxw
      · rw [noWsRun, List.chain'_cons']
        exact ⟨fun y _ => by simp [hc], inr⟩
      · intro _ d ds hds
        cases hds
        simpa using hc

theorem collapseWsGo_fixed : ∀ (l : List Char), wsOnlySpace l → noWsRun l →
    collapseWsGo false l = l ∧
      ((∀ c cs, l = c :: cs → pyIsWs c = false) → collapseWsGo true l = l) := by
  intro l
  induction l with
  | nil => exact fun _ _ => ⟨rfl, fun _ => rfl⟩
  | cons c cs ih =>
    intro hws hnr
    have hwscs : wsOnlySpace cs := fun x hx => hws x (List.mem_cons_of_mem _ hx)
    have hnrcs : noWsRun cs := List.Chain'.tail hnr
    obtain ⟨ih1, ih2⟩ := ih hwscs hnrcs
    by_cases hc : pyIsWs c = true
    · have hsp : c = ' ' := hws c (List.mem_cons_self _ _) hc
      have hhead : ∀ d ds, cs = d :: ds → pyIsWs d = false := by
        intro d ds hds
        have := (List.chain'_cons'.1 hnr).1 d (by rw [hds]; rfl)
        by_contra hd
        exact this ⟨hc, by simpa using hd⟩
      constructor
      · have : collapseWsGo false (c :: cs) = ' ' :: collapseWsGo true cs := by
          simp [collapseWsGo, hc]
        rw [this, ih2 hhead, hsp]
      · intro hcond
        exact absurd (hcond c cs rfl) (by simp [hc])
    · have hstep : ∀ b : Bool, collapseWsGo b (c :: cs) = c :: collapseWsGo false cs := by
        intro b; cases b <;> simp [collapseWsGo, hc]
      exact ⟨by rw [hstep false, ih1], fun _ => by rw [hstep true, ih1]⟩

theorem dropWhile_head_false {p : Char → Bool} :
    ∀ {l : List Char} {c : Char} {cs : List Char},
      l.dropWhile p = c :: cs → p c = false := by
  intro l
  induction l with
  | nil => intro c cs h; simp [List.dropWhile] at h
  | cons x xs ih =>
    intro c cs h
    by_cases hx : p x = true
    · rw [List.dropWhile_cons, if_pos hx] at h
      exact ih h
    · rw [List.dropWhile_cons, if_neg hx] at h
      cases h
      simpa using hx

/-- `pyStripL` in terms of the library combinators. -/
theorem pyStripL_eq (l : List Char) :
    pyStripL l = List.rdropWhile pyIsWs (List.dropWhile pyIsWs l) := rfl

theorem pyStripL_idem (l : List Char) : pyStripL (pyStripL l) = pyStripL l := by
  rw [pyStripL_eq, pyStripL_eq]
  have hdw : List.dropWhile pyIsWs
      (List.rdropWhile pyIsWs (List.dropWhile pyIsWs l)) =
      List.rdropWhile pyIsWs (List.dropWhile pyIsWs l) := by
    cases hw : List.rdropWhile pyIsWs (List.dropWhile pyIsWs l) with
    | nil => rfl
    | cons c cs =>
      obtain ⟨t, ht⟩ := List.rdropWhile_prefix pyIsWs (List.dropWhile pyIsWs l)
      rw [hw] at ht
      have hc : pyIsWs c = false := dropWhile_head_false ht.symm
      rw [List.dropWhile_cons, if_neg (by simp [hc])]
  rw [hdw, List.rdropWhile_idempotent]

theorem pyStripL_preserves {l : List Char} (hws : wsOnlySpace l) (hnr : noWsRun l) :
    wsOnlySpace (pyStripL l) ∧ noWsRun (pyStripL l) := by
  rw [pyStripL_eq]
  have hsub : (List.rdropWhile pyIsWs (List.dropWhile pyIsWs l)).Sublist l :=
    (( List.rdropWhile_prefix pyIsWs _).sublist).trans ((List.dropWhile_suffix pyIsWs).sublist)
  constructor
  · exact fun x hx => hws x (hsub.mem hx)
  · exact List.Chain'.prefix (hnr.suffix (List.dropWhile_suffix pyIsWs))
      ( List.rdropWhile_prefix pyIsWs _)

/-- The key idempotence: collapsing and stripping an already
collapsed-and-stripped string changes nothing. -/
theorem strip_collapse_idem (x : String) :
    pyStrip (collapseWs (pyStrip (collapseWs x))) = pyStrip (collapseWs x) := by
  obtain ⟨hy1, hy2, _⟩ := collapseWsGo_spec false x.data
  obtain ⟨hz1, hz2⟩ := pyStripL_preserves hy1 hy2
  have hfix : collapseWsGo false (pyStripL (collapseWsGo false x.data)) =
      pyStripL (collapseWsGo false x.data) := (collapseWsGo_fixed _ hz1 hz2).1
  show String.mk (pyStripL (collapseWsGo false (pyStripL (collapseWsGo false x.data)))) =
    String.mk (pyStripL (collapseWsGo false x.data))
  rw [hfix, pyStripL_idem]

theorem geoNormKey_of_norm (x : String) :
    geoNormKey (pyStrip (collapseWs x)) = pyLower (pyStrip (collapseWs x)) := by
  unfold geoNormKey
  rw [strip_collapse_idem]

theorem dedupLocs_keys : ∀ (raw seen : List String),
    ((dedupLocs raw seen).map geoNormKey).Nodup ∧
      ∀ b ∈ (dedupLocs raw seen).map geoNormKey, b ∉ seen := by
  intro raw
  induction raw with
  | nil => intro seen; simp [dedupLocs]
  | cons loc rest ih =>
    intro seen
    simp only [dedupLocs]
    split
    · next hcond =>
      simp only [Bool.and_eq_true, decide_eq_true_eq] at hcond
      have hkey : pyLower (pyStrip (collapseWs loc)) ∉ seen ∧
          pyLower (pyStrip (collapseWs loc)) ≠ "" := ⟨hcond.2, hcond.1⟩
      obtain ⟨ihn, ihs⟩ := ih (pyLower (pyStrip (collapseWs loc)) :: seen)
      simp only [List.map_cons, List.nodup_cons, geoNormKey_of_norm]
      refine ⟨⟨fun hmem => ?_, ihn⟩, ?_⟩
      · exact (ihs _ hmem) (List.mem_cons_self _ _)
      · intro b hb
        rcases List.mem_cons.1 hb with rfl | hb
        · exact hkey.1
        · exact fun hbs => (ihs b hb) (List.mem_cons_of_mem _ hbs)
    · next => exact ih seen

def docC4 : Document := { georeferences := some (.glist ["Paris", "paris"]) }

/-- C4 counterexample: caller-supplied georeferences are deduplicated by
*exact* stripped string (`dict.fromkeys`), not by the lowercase /
whitespace-collapsed key, so `["Paris", "paris"]` survives enrichment
with two entries that normalize to the same key `"paris"`. -/
theorem C4_counterexample :
    (ensure_document_has_location true (fun _ => []) (fun _ => none)
        docC4 true 1 []).1.georeferences = some (.glist ["Paris", "paris"]) ∧
    ¬ ((["Paris", "paris"].map geoNormKey).Nodup) :=
  ⟨by decide, by decide⟩

/-- C4 amended: the geocoding phase never touches `georeferences` or
`location_source`; when the caller supplied georeferences they are
deduplicated by exact stripped string (so distinct case or internal
whitespace variants may both remain) with `location_source` set to
`from-places` only when not already present; when none were supplied,
the auto-extracted list does satisfy the claimed invariant — no two
entries share the lowercase/whitespace-collapsed/trimmed key — and
`location_source` is `auto-extracted` or `default`. -/
theorem C4_georeference_dedup (nlpAvail : Bool) (ner : String → List String)
    (provider : String → Option Point) (doc : Document) (dg : Bool) (lim : Nat)
    (cache : GeoCache) :
    ((ensure_document_has_location nlpAvail ner provider doc dg lim cache).1.georeferences =
        (locationAssign nlpAvail ner doc).georeferences ∧
      (ensure_document_has_location nlpAvail ner provider doc dg lim cache).1.location_source =
        (locationAssign nlpAvail ner doc).location_source) ∧
    (existingGeorefs doc ≠ [] →
      ∃ gs, (locationAssign nlpAvail ner doc).georeferences = some (.glist gs) ∧
        gs = pyDedupFirst (((existingGeorefs doc).map pyStrip).filter (· ≠ "")) ∧
        gs.Nodup ∧
        (locationAssign nlpAvail ner doc).location_source =
          some (doc.location_source.getD "from-places")) ∧
    (existingGeorefs doc = [] →
      ∃ gs, (locationAssign nlpAvail ner doc).georeferences = some (.glist gs) ∧
        (gs.map geoNormKey).Nodup ∧
        ((locationAssign nlpAvail ner doc).location_source = some "auto-extracted" ∨
         (locationAssign nlpAvail ner doc).location_source = some "default")) := by
  refine ⟨?_, ?_, ?_⟩
  · unfold ensure_document_has_location
    dsimp only
    repeat' first | exact ⟨rfl, rfl⟩ | split
  · intro hex
    cases hexl : existingGeorefs doc with
    | nil => exact absurd hexl hex
    | cons a as =>
      refine ⟨pyDedupFirst (((a :: as).map pyStrip).filter (· ≠ "")), ?_, ?_, ?_, ?_⟩
      · simp only [locationAssign, hexl]
      · rfl
      · have hk := (dedupByKey_keys id (((a :: as).map pyStrip).filter (· ≠ "")) []).1
        rw [List.map_id] at hk
        exact hk
      · simp only [locationAssign, hexl]
  · intro hex
    simp only [locationAssign, hex]
    have haln : ∀ al : List String,
        al = (if pyStrip ((doc.content.getD "") ++ " " ++ (doc.title.getD "")) ≠ "" then
          extract_all_locations nlpAvail ner
            (pyStrip ((doc.content.getD "") ++ " " ++ (doc.title.getD ""))) else []) →
        (al.map geoNormKey).Nodup := by
      intro al hal
      rw [hal]
      split
      · unfold extract_all_locations
        split
        · simp
        · exact (dedupLocs_keys _ []).1
      · simp
    cases hc : (if pyStrip ((doc.content.getD "") ++ " " ++ (doc.title.getD "")) ≠ "" then
        extract_all_locations nlpAvail ner
          (pyStrip ((doc.content.getD "") ++ " " ++ (doc.title.getD ""))) else []) with
    | nil => exact ⟨[], rfl, by simp, Or.inr rfl⟩
    | cons a as =>
      exact ⟨a :: as, rfl, hc ▸ haln _ rfl, Or.inl rfl⟩

theorem C4_georeference_dedup_witness :
    existingGeorefs docC4 ≠ [] ∧
    (∃ gs, (locationAssign true (fun _ => []) docC4).georeferences = some (.glist gs) ∧
      gs = pyDedupFirst (((existingGeorefs docC4).map pyStrip).filter (· ≠ "")) ∧
      gs.Nodup ∧
      (locationAssign true (fun _ => []) docC4).location_source =
        some (docC4.location_source.getD "from-places")) :=
  ⟨by decide,
    (C4_georeference_dedup true (fun _ => []) (fun _ => none) docC4 false 1 []).2.1 (by decide)⟩

/-! ### Claim C7 -/

/-- The cache key of the geocode resolver: lowercase-trimmed name. -/
def geoKey (n : String) : String :=
  pyLower (pyStrip n)

theorem gcFind_insert_self (c : GeoCache) (k : String) (v : Option Point) :
    (c.insert k v).find k = some v := by
  simp [GeoCache.insert, GeoCache.find, List.lookup]

theorem gcFind_insert_ne (c : GeoCache) {k k' : String} (v : Option Point)
    (h : k' ≠ k) : (c.insert k v).find k' = c.find k' := by
  have hb : (k' == k) = false := beq_eq_false_iff_ne.2 h
  simp [GeoCache.insert, GeoCache.find, List.lookup, hb]

theorem gcFind_none_not_dom {c : GeoCache} {k : String}
    (h : c.find k = none) : k ∉ c.dom := by
  induction c with
  | nil => simp [GeoCache.dom]
  | cons p rest ih =>
    obtain ⟨k', v⟩ := p
    by_cases he : k = k'
    · subst he
      rw [show GeoCache.find ((k, v) :: rest) k = some v from by
        simp [GeoCache.find, List.lookup]] at h
      simp at h
    · rw [show GeoCache.find ((k', v) :: rest) k = GeoCache.find rest k from by
        have hb : (k == k') = false := beq_eq_false_iff_ne.2 he
        show List.lookup k ((k', v) :: rest) = List.lookup k rest
        rw [List.lookup_cons, hb]] at h
      intro hmem
      rcases List.mem_cons.1 hmem with heq | hmem
      · exact he heq
      · exact (ih h) hmem

theorem geoLoop_dom_mono (provider : String → Option Point) :
    ∀ (ns : List String) (c : GeoCache) (k : String),
      k ∈ c.dom → k ∈ (geoLoop provider ns c).2.1.dom := by
  intro ns
  induction ns with
  | nil => intro c k hk; exact hk
  | cons n rest ih =>
    intro c k hk
    simp only [geoLoop]
    by_cases hke : pyLower (pyStrip n) = ""
    · rw [if_pos hke]; exact ih c k hk
    · rw [if_neg hke]
      cases hf : c.find (pyLower (pyStrip n)) with
      | some v =>
        cases v with
        | some p => exact ih c k hk
        | none => exact ih c k hk
      | none =>
        cases hp : provider n with
        | some p =>
          exact ih _ k (List.mem_cons_of_mem _ hk)
        | none =>
          exact ih _ k (List.mem_cons_of_mem _ hk)

theorem geoLoop_calls (provider : String → Option Point) :
    ∀ (ns : List String) (c : GeoCache),
      (((geoLoop provider ns c).2.2).map geoKey).Nodup ∧
      ∀ x ∈ (geoLoop provider ns c).2.2,
        geoKey x ∉ c.dom ∧ geoKey x ∈ (geoLoop provider ns c).2.1.dom := by
  intro ns
  induction ns with
  | nil => intro c; simp [geoLoop]
  | cons n rest ih =>
    intro c
    simp only [geoLoop]
    by_cases hke : pyLower (pyStrip n) = ""
    · rw [if_pos hke]; exact ih c
    · rw [if_neg hke]
      cases hf : c.find (pyLower (pyStrip n)) with
      | some v =>
        cases v with
        | some p => exact ih c
        | none => exact ih c
      | none =>
        have hnotdom : pyLower (pyStrip n) ∉ c.dom := gcFind_none_not_dom hf
        cases hp : provider n with
        | some p =>
          obtain ⟨ihn, ihm⟩ := ih (c.insert (pyLower (pyStrip n)) (some p))
          refine ⟨?_, ?_⟩
          · simp only [List.map_cons, List.nodup_cons]
            refine ⟨fun hmem => ?_, ihn⟩
            obtain ⟨y, hy, hky⟩ := List.mem_map.1 hmem
            exact (ihm y hy).1 (hky ▸ List.mem_cons_self _ _)
          · intro x hx
            rcases List.mem_cons.1 hx with rfl | hx
            · exact ⟨hnotdom,
                geoLoop_dom_mono provider rest _ _ (List.mem_cons_self _ _)⟩
            · obtain ⟨h1, h2⟩ := ihm x hx
              exact ⟨fun hc => h1 (List.mem_cons_of_mem _ hc), h2⟩
        | none =>
          obtain ⟨ihn, ihm⟩ := ih (c.insert (pyLower (pyStrip n)) none)
          refine ⟨?_, ?_⟩
          · simp only [List.map_cons, List.nodup_cons]
            refine ⟨fun hmem => ?_, ihn⟩
            obtain ⟨y, hy, hky⟩ := List.mem_map.1 hmem
            exact (ihm y hy).1 (hky ▸ List.mem_cons_self _ _)
          · intro x hx
            rcases List.mem_cons.1 hx with rfl | hx
            · exact ⟨hnotdom,
                geoLoop_dom_mono provider rest _ _ (List.mem_cons_self _ _)⟩
            · obtain ⟨h1, h2⟩ := ihm x hx
              exact ⟨fun hc => h1 (List.mem_cons_of_mem _ hc), h2⟩

/-- The stable resolution value of a name during one `geocode_locations`
run from cache `c` over name list `ns`: a cached value wins, otherwise
the provider's answer for the first listed surface form with the same
normalized key (the one whose call fills the cache). -/
def geoStable (provider : String → Option Point) (c : GeoCache) (ns : List String)
    (n : String) : Option Point :=
  if geoKey n = "" then none
  else
    match c.find (geoKey n) with
    | some v => v
    | none =>
      match ns.find? (fun m => decide (geoKey m = geoKey n)) with
      | some m => provider m
      | none => provider n

theorem geoStable_cons_irrelevant (provider : String → Option Point) (c : GeoCache)
    (n : String) (rest : List String)
    (hcond : geoKey n = "" ∨ c.find (geoKey n) ≠ none) :
    ∀ m ∈ rest, geoStable provider c (n :: rest) m = geoStable provider c rest m := by
  intro m _
  by_cases hme : geoKey m = ""
  · simp [geoStable, hme]
  · unfold geoStable
    rw [if_neg hme, if_neg hme]
    cases hfm : c.find (geoKey m) with
    | some v => rfl
    | none =>
      have hne : ¬(geoKey n = geoKey m) := by
        rcases hcond with hc | hc
        · rw [hc]; exact fun h => hme h.symm
        · intro h; rw [h] at hc; exact hc hfm
      rw [List.find?_cons_of_neg _ (by simp [hne])]

theorem geoStable_insert_eq (provider : String → Option Point) (c : GeoCache)
    (n : String) (v : Option Point)
    (hf : c.find (geoKey n) = none) (hp : provider n = v) (rest : List String) :
    ∀ m ∈ rest,
      geoStable provider (c.insert (geoKey n) v) rest m =
        geoStable provider c (n :: rest) m := by
  intro m _
  by_cases hme : geoKey m = ""
  · simp [geoStable, hme]
  · unfold geoStable
    rw [if_neg hme, if_neg hme]
    by_cases heq : geoKey m = geoKey n
    · rw [heq, gcFind_insert_self, hf]
      rw [List.find?_cons_of_pos _ (by simp [heq.symm])]
      simp [hp]
    · rw [gcFind_insert_ne c v heq]
      cases hfm : c.find (geoKey m) with
      | some w => rfl
      | none =>
        rw [List.find?_cons_of_neg _ (by simp; exact fun h => heq h.symm)]

theorem geoLoop_points (provider : String → Option Point) :
    ∀ (ns : List String) (c : GeoCache),
      (geoLoop provider ns c).1 = ns.filterMap (geoStable provider c ns) := by
  intro ns
  induction ns with
  | nil => intro c; rfl
  | cons n rest ih =>
    intro c
    rw [List.filterMap_cons]
    by_cases hke : geoKey n = ""
    · have hke' : pyLower (pyStrip n) = "" := hke
      have hstep : (geoLoop provider (n :: rest) c).1 = (geoLoop provider rest c).1 := by
        simp only [geoLoop]
        rw [if_pos hke']
      have hn : geoStable provider c (n :: rest) n = none := by simp [geoStable, hke]
      rw [hstep, hn, ih c]
      exact (List.filterMap_congr
        (geoStable_cons_irrelevant provider c n rest (Or.inl hke))).symm
    · have hke' : ¬(pyLower (pyStrip n) = "") := hke
      cases hf : c.find (geoKey n) with
      | some v =>
        have hf' : c.find (pyLower (pyStrip n)) = some v := hf
        have hcong := List.filterMap_congr
          (geoStable_cons_irrelevant provider c n rest (Or.inr (by rw [hf]; simp)))
        cases v with
        | some p =>
          have hstep : (geoLoop provider (n :: rest) c).1 =
              p :: (geoLoop provider rest c).1 := by
            simp only [geoLoop]
            rw [if_neg hke', hf']
          have hn : geoStable provider c (n :: rest) n = some p := by
            simp [geoStable, hke, hf]
          rw [hstep, hn, ih c, hcong]
        | none =>
          have hstep : (geoLoop provider (n :: rest) c).1 =
              (geoLoop provider rest c).1 := by
            simp only [geoLoop]
            rw [if_neg hke', hf']
          have hn : geoStable provider c (n :: rest) n = none := by
            simp [geoStable, hke, hf]
          rw [hstep, hn, ih c, hcong]
      | none =>
        have hf' : c.find (pyLower (pyStrip n)) = none := hf
        have hn : geoStable provider c (n :: rest) n = provider n := by
          unfold geoStable
          rw [if_neg hke, hf]
          rw [List.find?_cons_of_pos _ (by simp)]
        cases hp : provider n with
        | some p =>
          have hstep : (geoLoop provider (n :: rest) c).1 =
              p :: (geoLoop provider rest (c.insert (pyLower (pyStrip n)) (some p))).1 := by
            simp only [geoLoop]
            rw [if_neg hke', hf', hp]
          rw [hstep, hn, hp, ih]
          exact congrArg (p :: ·)
            (List.filterMap_congr (geoStable_insert_eq provider c n (some p) hf hp rest))
        | none =>
          have hstep : (geoLoop provider (n :: rest) c).1 =
              (geoLoop provider rest (c.insert (pyLower (pyStrip n)) none)).1 := by
            simp only [geoLoop]
            rw [if_neg hke', hf', hp]
          rw [hstep, hn, hp, ih]
          exact List.filterMap_congr (geoStable_insert_eq provider c n none hf hp rest)

/-- C7: the geocode resolver attempts only the first `limit` names;
the emitted points are, in input order, the resolvable names of that
prefix (a `filterMap` of a per-name resolution value), skipping
failures; the provider is consulted only on cache misses — the calls of
one run have pairwise-distinct normalized keys, none already in the
cache, and each called key is cached afterwards, so the provider is
called at most once per distinct normalized name per process lifetime;
in particular resolving `["Paris", "Paris"]` issues exactly one call. -/
theorem C7_geocode_cache_and_order
    (provider : String → Option Point) (names : List String) (limit : Nat)
    (cache : GeoCache) :
    (((geocode_locations provider names limit cache).2.2).map geoKey).Nodup ∧
    (∀ x ∈ (geocode_locations provider names limit cache).2.2,
      geoKey x ∉ cache.dom ∧
      geoKey x ∈ ((geocode_locations provider names limit cache).2.1).dom) ∧
    (∃ r : String → Option Point,
      (geocode_locations provider names limit cache).1 =
        (names.take limit).filterMap r) ∧
    geocode_locations provider names limit cache =
      geocode_locations provider (names.take limit) limit cache ∧
    (geocode_locations (fun _ => some ⟨1, 2⟩) ["Paris", "Paris"] 5 []).2.2 =
      ["Paris"] := by
  refine ⟨(geoLoop_calls provider _ cache).1, (geoLoop_calls provider _ cache).2,
    ⟨geoStable provider cache (names.take limit), geoLoop_points provider _ cache⟩,
    ?_, by decide⟩
  unfold geocode_locations
  rw [List.take_take]
  simp
